import Mathlib

/-!
# qutils: the settings store (`zmc::SettingsManager`) and its instance registry

A shallow embedding of `src/src/SettingsManager.cpp`.

* Qt value types (`QByteArray`, `QString`, `QVariant`) are modelled by their
  documented conversions: UTF-8 for text, decimal numerals for integers,
  `true`/`false` for booleans, the identity for binary payloads; a byte array
  is read as a C string where Qt 5 does so.  The textual form of a `double`
  and the conversions of the Qt types that are not modelled are parameters
  (`QtParameters`).
* The table engine (`zmc::SqliteManager`) is declared in
  `include/qutils/SqliteManager.h`; its bodies are not among the sources and
  are modelled from the specification.
* `SettingsManager` itself (constructor, destructor, `write`, `read`,
  `remove`, `exists`, `createTable`, `openDatabase`, the broadcaster) is
  translated from the source, statement by statement.
-/

namespace zmc

/-! ## Bytes and text -/

/-- A `QByteArray`: a sequence of bytes, each a number below 256. -/
abbrev QByteArray := List Nat

/-- The UTF-8 encoding of one Unicode scalar value. -/
def utf8EncodeChar (c : Char) : QByteArray :=
  let n := c.toNat
  if n < 0x80 then [n]
  else if n < 0x800 then [0xC0 + n / 64, 0x80 + n % 64]
  else if n < 0x10000 then [0xE0 + n / 4096, 0x80 + n / 64 % 64, 0x80 + n % 64]
  else [0xF0 + n / 262144, 0x80 + n / 4096 % 64, 0x80 + n / 64 % 64, 0x80 + n % 64]

/-- The UTF-8 encoding of a sequence of characters. -/
def utf8EncodeChars : List Char → QByteArray
  | [] => []
  | c :: cs => utf8EncodeChar c ++ utf8EncodeChars cs

/-- Embeds `QString::toUtf8`. -/
def toUtf8 (s : String) : QByteArray := utf8EncodeChars s.data

/-- A UTF-8 continuation byte, `10xxxxxx`. -/
def isContinuation (b : Nat) : Bool := decide (0x80 ≤ b) && decide (b < 0xC0)

/-- The payload bits of a continuation byte. -/
def contBits (b : Nat) : Nat := b - 0x80

/-- The character U+FFFD that replaces an undecodable byte. -/
def replacementChar : Char := Char.ofNat 0xFFFD

/-- One decoding step: the character at the head of `bs` and the bytes after
it.  A byte that starts no well-formed, shortest-form sequence decodes to
U+FFFD and is skipped alone. -/
def utf8DecodeStep (b0 : Nat) (rest : QByteArray) : Char × QByteArray :=
  if b0 < 0x80 then (Char.ofNat b0, rest)
  else
    match rest with
    | b1 :: r1 =>
      if 0xC0 ≤ b0 ∧ b0 < 0xE0 ∧ isContinuation b1 = true
          ∧ 0x80 ≤ (b0 - 0xC0) * 64 + contBits b1 then
        (Char.ofNat ((b0 - 0xC0) * 64 + contBits b1), r1)
      else
        match r1 with
        | b2 :: r2 =>
          let cp3 := (b0 - 0xE0) * 4096 + contBits b1 * 64 + contBits b2
          if 0xE0 ≤ b0 ∧ b0 < 0xF0 ∧ isContinuation b1 = true ∧ isContinuation b2 = true
              ∧ 0x800 ≤ cp3 ∧ ¬ (0xD800 ≤ cp3 ∧ cp3 ≤ 0xDFFF) then
            (Char.ofNat cp3, r2)
          else
            match r2 with
            | b3 :: r3 =>
              let cp4 := (b0 - 0xF0) * 262144 + contBits b1 * 4096 + contBits b2 * 64
                + contBits b3
              if 0xF0 ≤ b0 ∧ b0 < 0xF8 ∧ isContinuation b1 = true ∧ isContinuation b2 = true
                  ∧ isContinuation b3 = true ∧ 0x10000 ≤ cp4 ∧ cp4 < 0x110000 then
                (Char.ofNat cp4, r3)
              else (replacementChar, rest)
            | [] => (replacementChar, rest)
        | [] => (replacementChar, rest)
    | [] => (replacementChar, rest)

/-- UTF-8 decoding; `fuel` bounds the number of characters produced. -/
def utf8DecodeAux : Nat → QByteArray → List Char
  | 0, _ => []
  | _ + 1, [] => []
  | fuel + 1, b0 :: rest =>
    (utf8DecodeStep b0 rest).1 :: utf8DecodeAux fuel (utf8DecodeStep b0 rest).2

/-- The bytes of a C string: those before the first zero byte.  Qt 5 hands a
byte array over as `constData()`, a C string, where it converts one to a text
or parses one as a number. -/
def cString (bs : QByteArray) : QByteArray := bs.takeWhile fun b => decide (b ≠ 0)

/-- The bytes after a leading UTF-8 byte order mark `EF BB BF`, which
`QString::fromUtf8` skips. -/
def skipByteOrderMark : QByteArray → QByteArray
  | 0xEF :: 0xBB :: 0xBF :: rest => rest
  | bs => bs

/-- Embeds `QString::fromUtf8` on a byte array with its size: a leading byte
order mark is skipped and the rest decoded; every byte yields at most one
character, so the length of the input is enough fuel. -/
def fromUtf8 (bs : QByteArray) : String :=
  String.mk (utf8DecodeAux bs.length (skipByteOrderMark bs))

/-! ## Decimal numerals -/

/-- The decimal digits of `n` in ASCII, most significant first, pushed in
front of `acc`. -/
def numberNatAux : Nat → Nat → QByteArray → QByteArray
  | 0, _, acc => acc
  | fuel + 1, n, acc =>
    if n < 10 then (48 + n) :: acc
    else numberNatAux fuel (n / 10) ((48 + n % 10) :: acc)

/-- Embeds `QByteArray::number` of a non-negative integer. -/
def numberNat (n : Nat) : QByteArray := numberNatAux (n + 1) n []

/-- Embeds `QByteArray::number` of an integer: an optional `-` and the decimal digits. -/
def numberInt (i : Int) : QByteArray :=
  if i < 0 then 45 :: numberNat i.natAbs else numberNat i.natAbs

/-- ASCII white space, as skipped around a numeral by the Qt number parsers. -/
def isSpace (b : Nat) : Bool := b == 32 || (decide (9 ≤ b) && decide (b ≤ 13))

/-- Removal of the leading and trailing white space. -/
def trimmed (bs : QByteArray) : QByteArray :=
  ((bs.dropWhile isSpace).reverse.dropWhile isSpace).reverse

/-- The value of a run of decimal digits, `none` when a byte is no digit. -/
def parseDigits : QByteArray → Nat → Option Nat
  | [], acc => some acc
  | d :: ds, acc =>
    if 48 ≤ d ∧ d ≤ 57 then parseDigits ds (acc * 10 + (d - 48)) else none

/-- The 64-bit integer written in base 10: white space, an optional sign, at
least one digit, white space; `none` when the text is no numeral or the value
does not fit 64 bits. -/
def parseLongLong (bs : QByteArray) : Option Int :=
  match trimmed bs with
  | [] => none
  | 45 :: ds =>
    if ds = [] then none
    else (parseDigits ds 0).bind fun n =>
      if n ≤ 2 ^ 63 then some (-(n : Int)) else none
  | 43 :: ds =>
    if ds = [] then none
    else (parseDigits ds 0).bind fun n =>
      if n < 2 ^ 63 then some (n : Int) else none
  | ds =>
    (parseDigits ds 0).bind fun n =>
      if n < 2 ^ 63 then some (n : Int) else none

/-- Embeds `QByteArray::toLongLong` in base 10, which parses the C string of
the array. -/
def toLongLong (bs : QByteArray) : Option Int := parseLongLong (cString bs)

/-- The C++ conversion of a 64-bit value to `int`: the low 32 bits, signed. -/
def toInt32 (i : Int) : Int := (i + 2 ^ 31) % 2 ^ 32 - 2 ^ 31

/-- ASCII lower-casing of one byte. -/
def asciiLower (b : Nat) : Nat := if 65 ≤ b ∧ b ≤ 90 then b + 32 else b

/-! ## `QVariant` -/

/-- A `QVariant`.  Six kinds are modelled by their values: the invalid
(default-constructed) variant, `bool`, `int`, `double`, `QString`,
`QByteArray`.  A variant of any other Qt type is kept as `other`: the id of
its type, none of 0, 1, 2, 6, 10 and 12, and the variant it was converted
from. -/
inductive QVariant where
  | invalid
  | bool (b : Bool)
  | int (i : Int)
  | double (d : ℚ)
  | string (s : String)
  | byteArray (b : QByteArray)
  | other (typeId : Nat) (source : QVariant)
  deriving DecidableEq

/-- What the model takes from Qt as given.  Finite `double` values are
modelled by the rational numbers they denote, and how they are printed and
parsed is `number` and `toDouble`.  What Qt does with the types outside the
six kinds is `convertOther` and `equalsOther`.  Every theorem holds for all
values of these parameters. -/
structure QtParameters where
  /-- Embeds `QByteArray::number(double)`. -/
  number : ℚ → QByteArray
  /-- Embeds `QByteArray::toDouble`, `none` when the text is no number. -/
  toDouble : QByteArray → Option ℚ
  /-- Embeds `QVariant::convert` where the source or the target is of a type
  outside the six kinds: the variant afterwards and the value returned. -/
  convertOther : QVariant → Int → QVariant × Bool
  /-- Embeds `QVariant::operator==` where an operand is of a type outside the
  six kinds. -/
  equalsOther : QVariant → QVariant → Bool

namespace QVariant

/-- Embeds `QVariant::type()`: the numeric type id (`QVariant::Invalid` = 0, `Bool` = 1,
`Int` = 2, `Double` = 6, `String` = 10, `ByteArray` = 12). -/
def type : QVariant → Nat
  | invalid => 0
  | bool _ => 1
  | int _ => 2
  | double _ => 6
  | string _ => 10
  | byteArray _ => 12
  | other typeId _ => typeId

/-- Embeds `QVariant::toByteArray()`: the bytes themselves, the UTF-8 form of a text,
the decimal form of a number, `true` or `false`; empty for the invalid
variant; for a variant of another type what its conversion to a byte array
gives. -/
def toByteArray (F : QtParameters) : QVariant → QByteArray
  | invalid => []
  | bool b => if b then toUtf8 "true" else toUtf8 "false"
  | int i => numberInt i
  | double d => F.number d
  | string s => toUtf8 s
  | byteArray b => b
  | other typeId source =>
    match (F.convertOther (other typeId source) 12).1 with
    | byteArray b => b
    | _ => []

/-- Conversion to `bool`: a number is true when it is not zero, a text or byte
array when it is neither empty nor `0` nor `false` (in any letter case). -/
def toBoolValue (F : QtParameters) (v : QVariant) : Bool :=
  match v with
  | invalid => false
  | bool b => b
  | int i => decide (i ≠ 0)
  | double d => decide (d ≠ 0)
  | _ =>
    let str := (v.toByteArray F).map asciiLower
    !(decide (str = []) || decide (str = toUtf8 "0") || decide (str = toUtf8 "false"))

/-- Conversion to a 64-bit integer (`qConvertToNumber`): a `double` is rounded
to the nearest integer, a text is parsed as a decimal numeral, a byte array
with `QByteArray::toLongLong`. -/
def toLongLongValue (F : QtParameters) (v : QVariant) : Option Int :=
  match v with
  | invalid => none
  | bool b => some (if b then 1 else 0)
  | int i => some i
  | double d => some (round d)
  | string s => parseLongLong (toUtf8 s)
  | _ => toLongLong (v.toByteArray F)

/-- Conversion to `double`. -/
def toDoubleValue (F : QtParameters) (v : QVariant) : Option ℚ :=
  match v with
  | invalid => none
  | bool b => some (if b then 1 else 0)
  | int i => some (i : ℚ)
  | double d => some d
  | _ => F.toDouble (v.toByteArray F)

/-- Embeds `QVariant::convert(targetTypeId)` of Qt 5: the converted variant and
whether the conversion succeeded.  A variant already of the target type is
unchanged.  Otherwise the variant is cleared; it stays invalid when no
conversion exists: from the invalid variant, or to the id 0 or a negative id.
Among the six kinds the value is converted, and is the zero of the target type
when it cannot be; a text is made of the C string of the bytes,
`QString::fromUtf8(constData())`, so it ends before the first zero byte and
has no leading byte order mark.  A conversion from or to any other type is
`convertOther`. -/
def convert (F : QtParameters) (v : QVariant) (targetTypeId : Int) : QVariant × Bool :=
  if (v.type : Int) = targetTypeId then (v, true)
  else if targetTypeId ≤ 0 then (invalid, false)
  else
    match v with
    | invalid => (invalid, false)
    | other _ _ => F.convertOther v targetTypeId
    | _ =>
      if targetTypeId = 1 then (bool (v.toBoolValue F), true)
      else if targetTypeId = 2 then
        match v.toLongLongValue F with
        | some n => (int (toInt32 n), true)
        | none => (int 0, false)
      else if targetTypeId = 6 then
        match v.toDoubleValue F with
        | some d => (double d, true)
        | none => (double 0, false)
      else if targetTypeId = 10 then
        (string (fromUtf8 (cString (v.toByteArray F))), true)
      else if targetTypeId = 12 then (byteArray (v.toByteArray F), true)
      else F.convertOther v targetTypeId

/-- Embeds `QVariant::toInt()`: the value converted to `int`, 0 when it cannot be. -/
def toInt (F : QtParameters) (v : QVariant) : Int :=
  match (v.convert F 2).1 with
  | int i => i
  | _ => 0

/-- Embeds `QVariant::canConvert(targetTypeId)` among the six kinds. -/
def canConvert (v : QVariant) (targetTypeId : Int) : Bool :=
  decide ((v.type : Int) = targetTypeId) ||
    (decide (v ≠ invalid) && decide (targetTypeId ∈ ([1, 2, 6, 10, 12] : List Int)))

/-- The numeric kinds: `bool`, `int`, `double`. -/
def isNumeric : QVariant → Bool
  | bool _ => true
  | int _ => true
  | double _ => true
  | _ => false

/-- The value of a numeric variant under the C++ promotions. -/
def numericValue : QVariant → ℚ
  | bool b => if b then 1 else 0
  | int i => (i : ℚ)
  | double d => d
  | _ => 0

/-- A variant of a type outside the six kinds. -/
def isOther : QVariant → Bool
  | other _ _ => true
  | _ => false

/-- Embeds `QVariant::operator==` (`QVariant::cmp`): a comparison with a
variant of another type is `equalsOther`; two numbers are compared as
numbers, two variants of one type by value; otherwise the right operand is
converted to the type of the left one, or, when that conversion does not
exist, the left one to the type of the right one, and a failed conversion
makes them unequal. -/
def equals (F : QtParameters) (v1 v2 : QVariant) : Bool :=
  if v1.isOther || v2.isOther then F.equalsOther v1 v2
  else if v1.isNumeric && v2.isNumeric then decide (v1.numericValue = v2.numericValue)
  else if v1.type = v2.type then decide (v1 = v2)
  else if v2.canConvert v1.type then
    (v2.convert F v1.type).2 && decide (v1 = (v2.convert F v1.type).1)
  else
    (v1.convert F v2.type).2 && decide (v2 = (v1.convert F v2.type).1)

end QVariant

/-! ## The settings table and the table engine -/

/-- The column `setting_name`. -/
def COL_SETTING_NAME : String := "setting_name"

/-- The column `setting_value`. -/
def COL_SETTING_VALUE : String := "setting_value"

/-- The column `setting_type`. -/
def COL_SETTING_TYPE : String := "setting_type"

/-- One row of the settings table: the three columns `createTable` declares,
all `NOT NULL`. -/
structure Setting where
  /-- Column `setting_name`, `TEXT`. -/
  setting_name : String
  /-- Column `setting_value`, `BLOB`. -/
  setting_value : QByteArray
  /-- Column `setting_type`, `INTEGER`: the number `toInt()` reads from the
  cell. -/
  setting_type : Int
  deriving DecidableEq

/-- Embeds `operator[]` on the `QMap<QString, QVariant>` of a selected row:
the cell of a column, and a default-constructed variant for any other key. -/
def Setting.at (row : Setting) (column : String) : QVariant :=
  if column = COL_SETTING_NAME then QVariant.string row.setting_name
  else if column = COL_SETTING_VALUE then QVariant.byteArray row.setting_value
  else if column = COL_SETTING_TYPE then QVariant.int row.setting_type
  else QVariant.invalid

/-- The contents of the database files: the rows of each table of each
database path, in insertion order. -/
abbrev Storage := String → String → List Setting

/-- Replacement of the rows of one table. -/
def Storage.setRows (st : Storage) (path table : String) (rows : List Setting) : Storage :=
  fun p t => if p = path ∧ t = table then rows else st p t

namespace SqliteManager

/-- Embeds `SqliteManager::ColumnTypes`. -/
inductive ColumnTypes where
  | TEXT | PK_INTEGER | PK_AUTOINCREMENT | INTEGER | REAL | BLOB | NULL_TYPE | NONE
  deriving DecidableEq

/-- Embeds `SqliteManager::ColumnDefinition`. -/
structure ColumnDefinition where
  isNull : Bool := false
  type : ColumnTypes := ColumnTypes.TEXT
  name : String
  deriving DecidableEq

/-- Embeds `ColumnDefinition::getNullText`. -/
def ColumnDefinition.getNullText (c : ColumnDefinition) : String :=
  if c.isNull then "" else "NOT NULL"

/-- Embeds `SqliteManager::Constraint`: column name, value, `AND` or `OR`. -/
abbrev Constraint := String × String × String

/-- Modelled from the spec: the Predicate Builder's `col=value`, whose
evaluation belongs to `SqliteManager.cpp` and the SQL driver, neither among
the sources.  The literal is compared with the cell of the column in its
textual form. -/
def predicateHolds (row : Setting) (column value : String) : Bool :=
  if column = COL_SETTING_NAME then decide (row.setting_name = value)
  else if column = COL_SETTING_VALUE then decide (row.setting_value = toUtf8 value)
  else if column = COL_SETTING_TYPE then decide (numberInt row.setting_type = toUtf8 value)
  else false

/-- Modelled from the spec: a join operator of a Predicate List is `AND` or
`OR` (`SqliteManager.cpp` is not among the sources). -/
def joinResult (join : String) (a b : Bool) : Bool :=
  if join = "AND" then a && b else if join = "OR" then a || b else false

/-- Modelled from the spec: the rest of a Predicate List, combined left to
right; `acc` is the value of the predicates so far and `join` the operator of
the last of them, which is dropped when nothing follows. -/
def holdsFrom (row : Setting) (acc : Bool) (join : String) : List Constraint → Bool
  | [] => acc
  | (column, value, next) :: rest =>
    holdsFrom row (joinResult join acc (predicateHolds row column value)) next rest

/-- Modelled from the spec: whether a row satisfies a Predicate List built by
`SqliteManager::constructWhereQuery` (body not among the sources); the empty
list selects every row. -/
def holds (constraints : List Constraint) (row : Setting) : Bool :=
  match constraints with
  | [] => true
  | (column, value, join) :: rest => holdsFrom row (predicateHolds row column value) join rest

/-- Modelled from the spec: a Predicate List the engine can execute names
columns of the table only and joins with `AND` or `OR`, the operator of the
last predicate apart. -/
def wellFormed : List Constraint → Bool
  | [] => true
  | [(column, _, _)] =>
    decide (column ∈ [COL_SETTING_NAME, COL_SETTING_VALUE, COL_SETTING_TYPE])
  | (column, _, join) :: rest =>
    decide (column ∈ [COL_SETTING_NAME, COL_SETTING_VALUE, COL_SETTING_TYPE])
      && (decide (join = "AND") || decide (join = "OR")) && wellFormed rest

/-- Modelled from the spec: the Connection Registry's `open(path)`
(`SqliteManager::openDatabase`, body not among the sources).  `ok` is whether
the file can be opened; the result is the open handle, bound to the path, or a
handle that is not open. -/
def openDatabase (ok : Bool) (databasePath : String) : Option String :=
  if ok then some databasePath else none

/-- Modelled from the spec: the Table Engine's `select`
(`SqliteManager::getFromTable`, body not among the sources) without order and
limit: the rows that satisfy the predicates, in table order, and the empty
sequence when the query fails.  `ok` is the verdict of the driver on the
statement. -/
def getFromTable (ok : Bool) (st : Storage) (database : Option String) (tableName : String)
    (constraints : List Constraint) : List Setting :=
  match database with
  | none => []
  | some path =>
    if ok = true ∧ wellFormed constraints = true then
      (st path tableName).filter (holds constraints)
    else []

/-- Modelled from the spec: the Table Engine's `insert`
(`SqliteManager::insertIntoTable`, body not among the sources): one row is
added; a failed statement changes nothing and returns `false`. -/
def insertIntoTable (ok : Bool) (st : Storage) (database : Option String) (tableName : String)
    (row : Setting) : Storage × Bool :=
  match database with
  | none => (st, false)
  | some path =>
    if ok = true then (st.setRows path tableName (st path tableName ++ [row]), true)
    else (st, false)

/-- Modelled from the spec: the Table Engine's `update`
(`SqliteManager::updateInTable`, body not among the sources): every row that
satisfies the predicates is overwritten with the columns of `row`, here all
three; a failed statement changes nothing and returns `false`. -/
def updateInTable (ok : Bool) (st : Storage) (database : Option String) (tableName : String)
    (row : Setting) (constraints : List Constraint) : Storage × Bool :=
  match database with
  | none => (st, false)
  | some path =>
    if ok = true ∧ wellFormed constraints = true then
      (st.setRows path tableName
        ((st path tableName).map fun r => if holds constraints r = true then row else r), true)
    else (st, false)

/-- Modelled from the spec: the Table Engine's `delete`
(`SqliteManager::deleteInTable`, body not among the sources): every row that
satisfies the predicates is removed; a failed statement changes nothing and
returns `false`. -/
def deleteInTable (ok : Bool) (st : Storage) (database : Option String) (tableName : String)
    (constraints : List Constraint) : Storage × Bool :=
  match database with
  | none => (st, false)
  | some path =>
    if ok = true ∧ wellFormed constraints = true then
      (st.setRows path tableName
        ((st path tableName).filter fun r => !(holds constraints r)), true)
    else (st, false)

end SqliteManager

/-- Modelled from the spec: the Table Engine's `exists`
(`SqliteManager::exists`, body not among the sources): true iff `select` with
those predicates yields at least one row. -/
def SqliteManager.exists (ok : Bool) (st : Storage) (database : Option String) (tableName : String)
    (constraints : List Constraint) : Bool :=
  !(SqliteManager.getFromTable ok st database tableName constraints).isEmpty

/-! ## `SettingsManager` -/

/-- What the storage layer answers to the statements of one call: whether the
database file can be opened and whether the driver executes a select, an
insert, an update, a delete. -/
structure Driver where
  openOk : Bool
  selectOk : Bool
  insertOk : Bool
  updateOk : Bool
  deleteOk : Bool
  deriving DecidableEq

/-- What a call makes observable, in order: the Qt signals it emits, each with
the object that emits it, and the `createTable` requests it sends to the
table engine. -/
inductive Event where
  | databaseOpened (sender : Nat)
  | databaseClosed (sender : Nat)
  | databasePathChanged (sender : Nat)
  | settingsTableNameChanged (sender : Nat)
  | settingChanged (sender : Nat) (settingName : String)
      (oldSettingValue newSettingValue : QVariant)
  | createTable (database : Option String) (columns : List SqliteManager.ColumnDefinition)
      (tableName : String)
  deriving DecidableEq

/-- The members of one `SettingsManager` object.  `address` is the object
itself (the pointer the registry stores); `m_Database` is the connection
handle, `none` while it is not open and the path it is bound to once open. -/
structure SettingsManager where
  address : Nat
  m_InstanceIndex : Nat
  m_DatabaseName : String
  m_SettingsTableName : String
  m_Database : Option String
  deriving DecidableEq

/-- The state a member function leaves behind, with its return value. -/
structure Outcome (α : Type) where
  result : α
  self : SettingsManager
  storage : Storage
  events : List Event

/-- The static members `m_Instances` and `m_InstanceLastIndex`, and the
objects constructed and not yet destroyed.  The counter is an `int` that grows
in step with the list, whose size is an `int` as well; it is modelled without
wrap-around. -/
structure Process where
  m_Instances : List (Option Nat)
  m_InstanceLastIndex : Nat
  objects : List SettingsManager
  deriving DecidableEq

/-- The static initialisers: an empty list and 0. -/
def Process.initial : Process := ⟨[], 0, []⟩

namespace SettingsManager

/-- The constructor, for the object at `address`; `appDataLocation` is
`QStandardPaths::writableLocation(QStandardPaths::AppDataLocation)`. -/
def construct (appDataLocation : String) (address : Nat) (databaseName tableName : String)
    (p : Process) : Process :=
  { m_Instances := p.m_Instances ++ [some address]
    m_InstanceLastIndex := p.m_InstanceLastIndex + 1
    objects := p.objects ++
      [{ address := address
         m_InstanceIndex := p.m_InstanceLastIndex
         m_DatabaseName := appDataLocation ++ "/" ++ databaseName
         m_SettingsTableName := tableName
         m_Database := none }] }

/-- The destructor: `m_Instances[m_InstanceIndex] = nullptr`.  An index that is
not below the size of the list is outside the contract of
`QList::operator[]`: no result. -/
def destruct (self : SettingsManager) (p : Process) : Option Process :=
  if self.m_InstanceIndex < p.m_Instances.length then
    some { p with
      m_Instances := p.m_Instances.set self.m_InstanceIndex none
      objects := p.objects.filter fun o => decide (o.address ≠ self.address) }
  else none

/-- Embeds `m_Database.isOpen()`. -/
def isOpen (self : SettingsManager) : Bool := self.m_Database.isSome

/-- Embeds `SettingsManager::openDatabase`. -/
def openDatabase (drv : Driver) (self : SettingsManager) : SettingsManager × List Event :=
  if self.isOpen = false then
    ({ self with m_Database := SqliteManager.openDatabase drv.openOk self.m_DatabaseName },
      [Event.databaseOpened self.address])
  else (self, [])

/-- The schema `createTable` hands to the table engine. -/
def columns : List SqliteManager.ColumnDefinition :=
  [ ⟨false, SqliteManager.ColumnTypes.TEXT, COL_SETTING_NAME⟩,
    ⟨false, SqliteManager.ColumnTypes.BLOB, COL_SETTING_VALUE⟩,
    ⟨false, SqliteManager.ColumnTypes.INTEGER, COL_SETTING_TYPE⟩ ]

/-- Embeds `SettingsManager::createTable`, with the macro `DATABASE_CHECK` expanded:
while the handle is not open, `openDatabase()` and `createTable()` again.
Every call of `createTable` takes one unit of `fuel`; `none` when the fuel
does not suffice.  The result of `m_SqlManager.createTable` is not used. -/
def createTable (drv : Driver) : Nat → SettingsManager → Option (SettingsManager × List Event)
  | 0, _ => none
  | fuel + 1, self =>
    let checked : Option (SettingsManager × List Event) :=
      if self.isOpen = false then
        match createTable drv fuel (openDatabase drv self).1 with
        | none => none
        | some (self2, events) => some (self2, (openDatabase drv self).2 ++ events)
      else some (self, [])
    match checked with
    | none => none
    | some (self1, events) =>
      some (self1, events ++
        [Event.createTable self1.m_Database columns self1.m_SettingsTableName])

/-- The macro `DATABASE_CHECK()`, where a member function invokes it. -/
def DATABASE_CHECK (drv : Driver) (fuel : Nat) (self : SettingsManager) :
    Option (SettingsManager × List Event) :=
  if self.isOpen = false then
    match createTable drv fuel (openDatabase drv self).1 with
    | none => none
    | some (self2, events) => some (self2, (openDatabase drv self).2 ++ events)
  else some (self, [])

/-- Embeds `SettingsManager::emitSettingChanged`, on the object `man`. -/
def emitSettingChanged (man : Nat) (settingName : String)
    (oldSettingValue newSettingValue : QVariant) : List Event :=
  [Event.settingChanged man settingName oldSettingValue newSettingValue]

/-- The loop of `emitSettingChangedInAllInstances` over `m_Instances`. -/
def emitToInstances (settingName : String) (oldSettingValue newSettingValue : QVariant) :
    List (Option Nat) → List Event
  | [] => []
  | none :: rest => emitToInstances settingName oldSettingValue newSettingValue rest
  | some man :: rest =>
    emitSettingChanged man settingName oldSettingValue newSettingValue ++
      emitToInstances settingName oldSettingValue newSettingValue rest

/-- Embeds `SettingsManager::emitSettingChangedInAllInstances`. -/
def emitSettingChangedInAllInstances (F : QtParameters) (m_Instances : List (Option Nat))
    (settingName : String) (oldSettingValue newSettingValue : QVariant) : List Event :=
  if QVariant.equals F oldSettingValue newSettingValue = false then
    emitToInstances settingName oldSettingValue newSettingValue m_Instances
  else []

/-- Embeds `SettingsManager::write`. -/
def write (F : QtParameters) (drv : Driver) (m_Instances : List (Option Nat)) (fuel : Nat)
    (key : String) (value : QVariant) (self : SettingsManager) (st : Storage) :
    Option (Outcome Bool) :=
  match DATABASE_CHECK drv fuel self with
  | none => none
  | some (self, opened) =>
    let values : List SqliteManager.Constraint := [(COL_SETTING_NAME, key, "AND")]
    let existingData :=
      SqliteManager.getFromTable drv.selectOk st self.m_Database self.m_SettingsTableName values
    let newMap : Setting :=
      { setting_name := key
        setting_value := value.toByteArray F
        setting_type := (value.type : Int) }
    match existingData with
    | oldMap :: _ =>
      let updated := SqliteManager.updateInTable drv.updateOk st self.m_Database
        self.m_SettingsTableName newMap values
      let oldValue := ((oldMap.at COL_SETTING_VALUE).convert F
        ((oldMap.at COL_SETTING_VALUE).toInt F)).1
      some { result := updated.2, self := self, storage := updated.1
             events := opened ++
               emitSettingChangedInAllInstances F m_Instances key oldValue value }
    | [] =>
      let inserted := SqliteManager.insertIntoTable drv.insertOk st self.m_Database
        self.m_SettingsTableName newMap
      some { result := inserted.2, self := self, storage := inserted.1
             events := opened ++
               emitSettingChangedInAllInstances F m_Instances key (QVariant.string "") value }

/-- Embeds `SettingsManager::read`. -/
def read (F : QtParameters) (drv : Driver) (fuel : Nat) (key : String)
    (self : SettingsManager) (st : Storage) : Option (Outcome QVariant) :=
  match DATABASE_CHECK drv fuel self with
  | none => none
  | some (self, opened) =>
    let values : List SqliteManager.Constraint := [(COL_SETTING_NAME, key, "AND")]
    let existingData :=
      SqliteManager.getFromTable drv.selectOk st self.m_Database self.m_SettingsTableName values
    match existingData with
    | row :: _ =>
      some { result := ((row.at COL_SETTING_VALUE).convert F
               ((row.at COL_SETTING_TYPE).toInt F)).1
             self := self, storage := st, events := opened }
    | [] => some { result := QVariant.invalid, self := self, storage := st, events := opened }

/-- Embeds `SettingsManager::remove`. -/
def remove (drv : Driver) (fuel : Nat) (key : String) (self : SettingsManager)
    (st : Storage) : Option (Outcome Bool) :=
  match DATABASE_CHECK drv fuel self with
  | none => none
  | some (self, opened) =>
    let constraints : List SqliteManager.Constraint := [(COL_SETTING_NAME, key, "AND")]
    let deleted := SqliteManager.deleteInTable drv.deleteOk st self.m_Database
      self.m_SettingsTableName constraints
    some { result := deleted.2, self := self, storage := deleted.1, events := opened }

end SettingsManager

/-- Embeds `SettingsManager::exists`. -/
def SettingsManager.exists (drv : Driver) (fuel : Nat) (key : String) (self : SettingsManager)
    (st : Storage) : Option (Outcome Bool) :=
  match SettingsManager.DATABASE_CHECK drv fuel self with
  | none => none
  | some (self, opened) =>
    let constraints : List SqliteManager.Constraint := [(COL_SETTING_NAME, key, "AND")]
    some { result := SqliteManager.exists drv.selectOk st self.m_Database
             self.m_SettingsTableName constraints
           self := self, storage := st, events := opened }

/-! ## Construction and destruction of instances -/

/-- A construction or a destruction of a `SettingsManager`. -/
inductive Lifecycle where
  | construct (address : Nat) (databaseName tableName : String)
  | destroy (address : Nat)
  deriving DecidableEq

/-- One step of the process.  An object is constructed at an address where no
object lives, and only a living object is destroyed; a step that breaks this,
or a destructor that indexes outside the list, has no result. -/
def Process.step (appDataLocation : String) (p : Process) : Lifecycle → Option Process
  | Lifecycle.construct address databaseName tableName =>
    if p.objects.any (fun o => decide (o.address = address)) = true then none
    else some (SettingsManager.construct appDataLocation address databaseName tableName p)
  | Lifecycle.destroy address =>
    match p.objects.find? fun o => decide (o.address = address) with
    | none => none
    | some self => SettingsManager.destruct self p

/-- A sequence of constructions and destructions, from left to right. -/
def Process.run (appDataLocation : String) : List Lifecycle → Process → Option Process
  | [], p => some p
  | op :: ops, p =>
    match p.step appDataLocation op with
    | none => none
    | some q => Process.run appDataLocation ops q

/-- The number of constructions in a sequence. -/
def Lifecycle.constructions : List Lifecycle → Nat
  | [] => 0
  | Lifecycle.construct _ _ _ :: ops => Lifecycle.constructions ops + 1
  | Lifecycle.destroy _ :: ops => Lifecycle.constructions ops

/-- The change notifications an object receives in a run of events: the
payloads of its `settingChanged` signals, in order. -/
def Event.changesOf (man : Nat) : List Event → List (String × QVariant × QVariant)
  | [] => []
  | Event.settingChanged sender name old new :: rest =>
    if sender = man then (name, old, new) :: Event.changesOf man rest
    else Event.changesOf man rest
  | _ :: rest => Event.changesOf man rest

/-! ## Properties stated below -/

/-- At most one row per `setting_name`. -/
def singleRowPerKey (rows : List Setting) : Prop :=
  (rows.map Setting.setting_name).Nodup

instance (rows : List Setting) : Decidable (singleRowPerKey rows) :=
  inferInstanceAs (Decidable (rows.map Setting.setting_name).Nodup)

/-- The rows of a table named `key`. -/
def rowsNamed (key : String) (rows : List Setting) : List Setting :=
  rows.filter fun r => decide (r.setting_name = key)

/-- A call of `write` or of `remove`, with the answers of the storage layer
during the call. -/
inductive Call where
  | write (drv : Driver) (key : String) (value : QVariant)
  | remove (drv : Driver) (key : String)

/-- The answers of the storage layer during a call. -/
def Call.driver : Call → Driver
  | Call.write drv _ _ => drv
  | Call.remove drv _ => drv

/-- One call on an instance: the instance and the storage afterwards. -/
def SettingsManager.perform (F : QtParameters) (m_Instances : List (Option Nat)) (fuel : Nat)
    (self : SettingsManager) (st : Storage) : Call → Option (SettingsManager × Storage)
  | Call.write drv key value =>
    (SettingsManager.write F drv m_Instances fuel key value self st).map
      fun w => (w.self, w.storage)
  | Call.remove drv key =>
    (SettingsManager.remove drv fuel key self st).map fun r => (r.self, r.storage)

/-- A sequence of calls on an instance, from left to right. -/
def SettingsManager.performAll (F : QtParameters) (m_Instances : List (Option Nat))
    (fuel : Nat) : List Call → SettingsManager → Storage → Option (SettingsManager × Storage)
  | [], self, st => some (self, st)
  | call :: calls, self, st =>
    match SettingsManager.perform F m_Instances fuel self st call with
    | none => none
    | some (self2, st2) => SettingsManager.performAll F m_Instances fuel calls self2 st2

/-- The database file an instance works on: the path its open handle is bound
to, and `m_DatabaseName` while the handle is not open. -/
def SettingsManager.target (self : SettingsManager) : String :=
  self.m_Database.getD self.m_DatabaseName

/-- The bookkeeping of the registry: the counter is the length of the list,
the pointers in the list are the living objects in the order of their
construction, no address is in use twice, and every living object is found
in its own slot. -/
def Process.consistent (p : Process) : Prop :=
  p.m_InstanceLastIndex = p.m_Instances.length ∧
  p.m_Instances.reduceOption = p.objects.map SettingsManager.address ∧
  (p.objects.map SettingsManager.address).Nodup ∧
  ∀ o ∈ p.objects, p.m_Instances[o.m_InstanceIndex]? = some (some o.address)

/-! ## Changing the database and the table of an instance -/

/-- Modelled from the spec: the Connection Registry's `close(path)`
(`SqliteManager::closeDatabase`, body not among the sources): the handle is
closed and evicted, so that it is not open afterwards. -/
def SqliteManager.closeDatabase (_database : Option String) : Option String := none

/-- Modelled from the spec: the Predicate Builder's `build`
(`SqliteManager::constructWhereQuery`, declared in `SqliteManager.h`, body not
among the sources): `col=value` for each predicate in order; after every
predicate except the last of the list its join operator, between blanks; the
join operator of the last predicate is dropped; the empty list yields the
empty text.  The values are taken as they are written. -/
def SqliteManager.constructWhereQuery : List SqliteManager.Constraint → String
  | [] => ""
  | [(column, value, _)] => column ++ "=" ++ value
  | (column, value, join) :: next :: rest =>
    column ++ "=" ++ value ++ " " ++ join ++ " " ++
      SqliteManager.constructWhereQuery (next :: rest)

namespace SettingsManager

/-- Embeds `SettingsManager::getDatabaseName`. -/
def getDatabaseName (self : SettingsManager) : String := self.m_DatabaseName

/-- Embeds `SettingsManager::getSettingsTableName`. -/
def getSettingsTableName (self : SettingsManager) : String := self.m_SettingsTableName

/-- Embeds `SettingsManager::restartDatabase`. -/
def restartDatabase (drv : Driver) (self : SettingsManager) : SettingsManager × List Event :=
  let closed : SettingsManager × List Event :=
    if self.isOpen = true then
      ({ self with m_Database := SqliteManager.closeDatabase self.m_Database },
        [Event.databaseClosed self.address])
    else (self, [])
  ({ closed.1 with
      m_Database := SqliteManager.openDatabase drv.openOk closed.1.m_DatabaseName },
    closed.2 ++ [Event.databaseOpened self.address])

/-- Embeds `SettingsManager::setSettingsTableName`; `fuel` is for the call of
`createTable`. -/
def setSettingsTableName (drv : Driver) (fuel : Nat) (tableName : String)
    (self : SettingsManager) : Option (SettingsManager × List Event) :=
  let renamed : SettingsManager := { self with m_SettingsTableName := tableName }
  match createTable drv fuel (restartDatabase drv renamed).1 with
  | none => none
  | some (self2, events) =>
    some (self2, [Event.settingsTableNameChanged self.address] ++
      (restartDatabase drv renamed).2 ++ events)

/-- Embeds `SettingsManager::setDatabaseName`; `isAbsolutePath` is
`QDir::isAbsolutePath` and `fuel` is for the call of `createTable`.  The
message of `LOG_ERROR` goes to the log and is not an event. -/
def setDatabaseName (isAbsolutePath : String → Bool) (drv : Driver) (fuel : Nat)
    (databaseName : String) (self : SettingsManager) :
    Option (SettingsManager × List Event) :=
  if isAbsolutePath databaseName = true then some (self, [])
  else
    let renamed : SettingsManager := { self with m_DatabaseName := databaseName }
    match createTable drv fuel (restartDatabase drv renamed).1 with
    | none => none
    | some (self2, events) =>
      some (self2, [Event.databasePathChanged self.address] ++
        (restartDatabase drv renamed).2 ++ events)

end SettingsManager

/-! ## `SignalManager` -/

/-- A `QMap<int, T>`: its entries, in the order of the keys. -/
abbrev QMap (T : Type) := List (Nat × T)

/-- Embeds `QMap::insert`: the value of an existing key is replaced, a new key
is put at its place in the order. -/
def QMap.insert {T : Type} (m : QMap T) (key : Nat) (value : T) : QMap T :=
  m.filter (fun e => decide (e.1 < key)) ++ [(key, value)] ++
    m.filter (fun e => decide (key < e.1))

/-- Embeds `QMap::remove`. -/
def QMap.remove {T : Type} (m : QMap T) (key : Nat) : QMap T :=
  m.filter fun e => decide (e.1 ≠ key)

/-- The members of one `SignalManager` object; `address` is the object itself
(the pointer the registry stores) and `objectName` its `QObject` name. -/
structure SignalManager where
  address : Nat
  m_InstanceIndex : Nat
  objectName : String
  deriving DecidableEq

/-- The static member `SignalManager::m_Instances` and the objects constructed
and not yet destroyed. -/
structure SignalProcess where
  m_Instances : QMap (Option Nat)
  objects : List SignalManager
  deriving DecidableEq

/-- The static initialiser: an empty map. -/
def SignalProcess.initial : SignalProcess := ⟨[], []⟩

namespace SignalManager

/-- The constructor, for the object at `address`: `m_InstanceIndex` is
`m_Instances.size()`.  A new `QObject` has the empty name. -/
def construct (address : Nat) (p : SignalProcess) : SignalProcess :=
  { m_Instances := p.m_Instances.insert p.m_Instances.length (some address)
    objects := p.objects ++
      [{ address := address, m_InstanceIndex := p.m_Instances.length, objectName := "" }] }

/-- The destructor: `m_Instances.remove(m_InstanceIndex)`. -/
def destruct (self : SignalManager) (p : SignalProcess) : SignalProcess :=
  { m_Instances := p.m_Instances.remove self.m_InstanceIndex
    objects := p.objects.filter fun o => decide (o.address ≠ self.address) }

/-- Embeds `instance->objectName()` for the object a pointer of the registry
points to; a pointer to no living object has no name to read, the empty text
stands for it. -/
def objectNameOf (objects : List SignalManager) (receiver : Nat) : String :=
  match objects.find? fun o => decide (o.address = receiver) with
  | some o => o.objectName
  | none => ""

/-- The loop of `emitSignal` over the entries of the map: the calls of
`signalReceived(signalName, data)` it queues, each with its receiver. -/
def emitLoop {Data : Type} (objects : List SignalManager)
    (signalName targetObjectName : String) (data : Data) :
    QMap (Option Nat) → List (Nat × String × Data)
  | [] => []
  | (_, none) :: rest => emitLoop objects signalName targetObjectName data rest
  | (_, some receiver) :: rest =>
    (if targetObjectName.length > 0 then
      if targetObjectName = objectNameOf objects receiver then
        [(receiver, signalName, data)]
      else []
    else [(receiver, signalName, data)]) ++
      emitLoop objects signalName targetObjectName data rest

/-- Embeds `SignalManager::emitSignal`. -/
def emitSignal {Data : Type} (p : SignalProcess) (signalName targetObjectName : String)
    (data : Data) : List (Nat × String × Data) :=
  emitLoop p.objects signalName targetObjectName data p.m_Instances

end SignalManager

/-- A construction or a destruction of a `SignalManager`, or a call of
`setObjectName` on one. -/
inductive SignalLifecycle where
  | construct (address : Nat)
  | destroy (address : Nat)
  | setObjectName (address : Nat) (name : String)
  deriving DecidableEq

/-- One step of the process.  An object is constructed at an address where no
object lives; only a living object is destroyed or renamed; a step that breaks
this has no result. -/
def SignalProcess.step (p : SignalProcess) : SignalLifecycle → Option SignalProcess
  | SignalLifecycle.construct address =>
    if p.objects.any (fun o => decide (o.address = address)) = true then none
    else some (SignalManager.construct address p)
  | SignalLifecycle.destroy address =>
    match p.objects.find? fun o => decide (o.address = address) with
    | none => none
    | some self => some (SignalManager.destruct self p)
  | SignalLifecycle.setObjectName address name =>
    if p.objects.any (fun o => decide (o.address = address)) = true then
      some { p with
        objects := p.objects.map fun o =>
          if o.address = address then { o with objectName := name } else o }
    else none

/-- A sequence of steps, from left to right. -/
def SignalProcess.run : List SignalLifecycle → SignalProcess → Option SignalProcess
  | [], p => some p
  | op :: ops, p =>
    match p.step op with
    | none => none
    | some q => SignalProcess.run ops q

/-- The bookkeeping `emitSignal` relies on: no key is in the map twice, every
entry of the map points to a living object whose index is the key of the
entry, and no address is in use twice. -/
def SignalProcess.consistent (p : SignalProcess) : Prop :=
  (p.m_Instances.map Prod.fst).Nodup ∧
  (∀ e ∈ p.m_Instances, ∃ o ∈ p.objects, e.2 = some o.address ∧ o.m_InstanceIndex = e.1) ∧
  (p.objects.map SignalManager.address).Nodup

/-! ## Concrete inputs -/

namespace Sample

/-- Parameters that print the integral reals as decimal numerals, keep a
variant converted to an unsigned or a 64-bit integer (the ids 3, 4, 5) as
`other`, know no further conversion, and compare variants of other types by
their type and source. -/
def format : QtParameters :=
  ⟨fun q => if q.den = 1 then numberInt q.num else [],
   fun bs => (toLongLong bs).map fun i => (i : ℚ),
   fun v t => if t = 3 ∨ t = 4 ∨ t = 5 then (QVariant.other t.toNat v, true)
     else (QVariant.invalid, false),
   fun v1 v2 => decide (v1 = v2)⟩

/-- Three instances were constructed, at the addresses 100, 200 and 300, and
the second one was destroyed. -/
def registry : List (Option Nat) := [some 100, none, some 300]

/-- A storage layer that opens and selects but refuses every change, as on a
read-only database file. -/
def readOnlyDriver : Driver := ⟨true, true, false, false, false⟩

/-- The constructions and the destruction behind `registry`. -/
def lifecycle : List Lifecycle :=
  [Lifecycle.construct 100 "app.db" "settings", Lifecycle.construct 200 "app.db" "settings",
   Lifecycle.construct 300 "other.db" "settings", Lifecycle.destroy 200]

/-- The process after `lifecycle`, with `/data` as the application data
location. -/
def process : Process :=
  ⟨registry, 3,
   [⟨100, 0, "/data/app.db", "settings", none⟩, ⟨300, 2, "/data/other.db", "settings", none⟩]⟩

/-- The process after one more construction, at the address 200 again. -/
def laterProcess : Process :=
  ⟨[some 100, none, some 300, some 200], 4,
   [⟨100, 0, "/data/app.db", "settings", none⟩, ⟨300, 2, "/data/other.db", "settings", none⟩,
    ⟨200, 3, "/data/app.db", "settings", none⟩]⟩

/-- Two writes of `theme`, its removal, and a write of `volume`, each on a
storage layer that executes every statement. -/
def calls : List Call :=
  [Call.write ⟨true, true, true, true, true⟩ "theme" (QVariant.string "dark"),
   Call.write ⟨true, true, true, true, true⟩ "theme" (QVariant.string "light"),
   Call.remove ⟨true, true, true, true, true⟩ "theme",
   Call.write ⟨true, true, true, true, true⟩ "volume" (QVariant.int 75)]

/-- A storage layer on which every statement succeeds. -/
def okDriver : Driver := ⟨true, true, true, true, true⟩

/-- A storage layer whose selects fail while it executes every other
statement. -/
def blindDriver : Driver := ⟨true, false, true, true, true⟩

/-- Empty tables everywhere. -/
def emptyStorage : Storage := fun _ _ => []

/-- An instance on `/data/app.db`, table `settings`, not yet connected. -/
def manager : SettingsManager := ⟨100, 0, "/data/app.db", "settings", none⟩

/-- The table `settings` of `/data/app.db` holds the text `dark` under `theme`. -/
def themeStorage : Storage := fun p t =>
  if p = "/data/app.db" ∧ t = "settings" then [⟨"theme", toUtf8 "dark", 10⟩] else []

/-- A storage layer whose database file cannot be opened. -/
def unopenableDriver : Driver := ⟨false, true, true, true, true⟩

/-- A path is absolute when it starts with a slash, as `QDir::isAbsolutePath`
has it on Unix. -/
def isAbsolutePath (path : String) : Bool := decide (path.data.head? = some '/')

/-- An instance connected to `/data/app.db`, table `settings`. -/
def openManager : SettingsManager :=
  ⟨100, 0, "/data/app.db", "settings", some "/data/app.db"⟩

/-- Two signal managers are constructed, the first one is destroyed, and a
third one is constructed. -/
def signalLifecycle : List SignalLifecycle :=
  [SignalLifecycle.construct 1, SignalLifecycle.construct 2, SignalLifecycle.destroy 1,
   SignalLifecycle.construct 3]

/-- Two signal managers are constructed and the second one is named `panel`. -/
def namedLifecycle : List SignalLifecycle :=
  [SignalLifecycle.construct 1, SignalLifecycle.construct 2,
   SignalLifecycle.setObjectName 2 "panel"]

/-- The process after `namedLifecycle`. -/
def namedProcess : SignalProcess :=
  ⟨[(0, some 1), (1, some 2)], [⟨1, 0, ""⟩, ⟨2, 1, "panel"⟩]⟩

end Sample

end zmc

/-! # Theorems -/

namespace zmc

/-! ## UTF-8 -/

theorem QVariant.toInt_int (F : QtParameters) (i : Int) : (QVariant.int i).toInt F = i := by
  simp [QVariant.toInt, QVariant.convert, QVariant.type]

/-! ## The table engine on the predicate `setting_name = key` -/

theorem SqliteManager.wellFormed_name (key join : String) :
    SqliteManager.wellFormed [(COL_SETTING_NAME, key, join)] = true := by
  simp [SqliteManager.wellFormed]

theorem SqliteManager.holds_name (key join : String) (row : Setting) :
    SqliteManager.holds [(COL_SETTING_NAME, key, join)] row
      = decide (row.setting_name = key) := by
  simp [SqliteManager.holds, SqliteManager.holdsFrom, SqliteManager.predicateHolds]

theorem SqliteManager.holds_name_fun (key join : String) :
    SqliteManager.holds [(COL_SETTING_NAME, key, join)]
      = fun row => decide (row.setting_name = key) :=
  funext (SqliteManager.holds_name key join)

theorem Storage.setRows_same (st : Storage) (path table : String) (rows : List Setting) :
    st.setRows path table rows path table = rows := by
  simp [Storage.setRows]

theorem SqliteManager.getFromTable_name (ok : Bool) (st : Storage) (path table key : String) :
    SqliteManager.getFromTable ok st (some path) table [(COL_SETTING_NAME, key, "AND")]
      = if ok = true then rowsNamed key (st path table) else [] := by
  simp [SqliteManager.getFromTable, SqliteManager.wellFormed_name,
    SqliteManager.holds_name_fun, rowsNamed]

/-! ## `DATABASE_CHECK` -/

theorem SettingsManager.createTable_of_open (drv : Driver) (fuel : Nat) (self : SettingsManager)
    (h : self.isOpen = true) :
    SettingsManager.createTable drv (fuel + 1) self
      = some (self, [Event.createTable self.m_Database SettingsManager.columns
          self.m_SettingsTableName]) := by
  simp [SettingsManager.createTable, h]

theorem SettingsManager.DATABASE_CHECK_eq (drv : Driver) (fuel : Nat) (self : SettingsManager)
    (path : String) (h : (SettingsManager.openDatabase drv self).1.m_Database = some path) :
    SettingsManager.DATABASE_CHECK drv (fuel + 1) self
      = some ((SettingsManager.openDatabase drv self).1,
          if self.isOpen = false then
            [Event.databaseOpened self.address,
             Event.createTable (some path) SettingsManager.columns self.m_SettingsTableName]
          else []) := by
  unfold SettingsManager.DATABASE_CHECK
  by_cases ho : self.isOpen = false
  · have hopen : (SettingsManager.openDatabase drv self).1.isOpen = true := by
      simp [SettingsManager.isOpen, h]
    rw [if_pos ho, SettingsManager.createTable_of_open drv fuel _ hopen]
    simp [SettingsManager.openDatabase, ho, h] at h ⊢
    simp [h]
  · simp [ho, SettingsManager.openDatabase]

theorem SettingsManager.DATABASE_CHECK_of_open (drv : Driver) (fuel : Nat)
    (self : SettingsManager) (h : self.isOpen = true) :
    SettingsManager.DATABASE_CHECK drv fuel self = some (self, []) := by
  simp [SettingsManager.DATABASE_CHECK, h]

theorem SettingsManager.openDatabase_table (drv : Driver) (self : SettingsManager) :
    (SettingsManager.openDatabase drv self).1.m_SettingsTableName = self.m_SettingsTableName := by
  unfold SettingsManager.openDatabase
  split <;> rfl

/-! ## `write` and `read`, branch by branch -/

theorem SettingsManager.write_of_found (F : QtParameters) (drv : Driver)
    (m_Instances : List (Option Nat)) (fuel : Nat) (key : String) (value : QVariant)
    (self : SettingsManager) (st : Storage) (path : String) (oldMap : Setting)
    (rest : List Setting)
    (hconn : (SettingsManager.openDatabase drv self).1.m_Database = some path)
    (hsel : drv.selectOk = true)
    (hfound : rowsNamed key (st path self.m_SettingsTableName) = oldMap :: rest) :
    ∃ w, SettingsManager.write F drv m_Instances (fuel + 1) key value self st = some w ∧
      w.result = drv.updateOk ∧
      w.self = (SettingsManager.openDatabase drv self).1 ∧
      w.storage = (if drv.updateOk = true then
          st.setRows path self.m_SettingsTableName
            ((st path self.m_SettingsTableName).map fun r =>
              if r.setting_name = key then
                ⟨key, value.toByteArray F, (value.type : Int)⟩ else r)
        else st) ∧
      w.events = (if self.isOpen = false then
            [Event.databaseOpened self.address,
             Event.createTable (some path) SettingsManager.columns self.m_SettingsTableName]
          else []) ++
        SettingsManager.emitSettingChangedInAllInstances F m_Instances key
          ((QVariant.byteArray oldMap.setting_value).convert F
            ((QVariant.byteArray oldMap.setting_value).toInt F)).1 value := by
  unfold SettingsManager.write
  rw [SettingsManager.DATABASE_CHECK_eq drv fuel self path hconn]
  simp only [hconn, SettingsManager.openDatabase_table, SqliteManager.getFromTable_name, hsel,
    if_true, hfound]
  refine ⟨_, rfl, ?_, rfl, ?_, ?_⟩
  · cases hu : drv.updateOk <;>
      simp [SqliteManager.updateInTable, SqliteManager.wellFormed_name]
  · by_cases hu : drv.updateOk = true
    · simp [SqliteManager.updateInTable, SqliteManager.wellFormed_name, hu,
        SqliteManager.holds_name]
    · simp [SqliteManager.updateInTable, hu]
  · simp [Setting.at, COL_SETTING_VALUE, COL_SETTING_NAME]

theorem SettingsManager.write_of_absent (F : QtParameters) (drv : Driver)
    (m_Instances : List (Option Nat)) (fuel : Nat) (key : String) (value : QVariant)
    (self : SettingsManager) (st : Storage) (path : String)
    (hconn : (SettingsManager.openDatabase drv self).1.m_Database = some path)
    (habsent : drv.selectOk = true → rowsNamed key (st path self.m_SettingsTableName) = []) :
    ∃ w, SettingsManager.write F drv m_Instances (fuel + 1) key value self st = some w ∧
      w.result = drv.insertOk ∧
      w.self = (SettingsManager.openDatabase drv self).1 ∧
      w.storage = (if drv.insertOk = true then
          st.setRows path self.m_SettingsTableName
            (st path self.m_SettingsTableName ++
              [⟨key, value.toByteArray F, (value.type : Int)⟩])
        else st) ∧
      w.events = (if self.isOpen = false then
            [Event.databaseOpened self.address,
             Event.createTable (some path) SettingsManager.columns self.m_SettingsTableName]
          else []) ++
        SettingsManager.emitSettingChangedInAllInstances F m_Instances key
          (QVariant.string "") value := by
  unfold SettingsManager.write
  rw [SettingsManager.DATABASE_CHECK_eq drv fuel self path hconn]
  have hnone : (if drv.selectOk = true then
      rowsNamed key (st path self.m_SettingsTableName) else []) = [] := by
    by_cases hs : drv.selectOk = true
    · simp [hs, habsent hs]
    · simp [hs]
  simp only [hconn, SettingsManager.openDatabase_table, SqliteManager.getFromTable_name, hnone]
  refine ⟨_, rfl, ?_, rfl, ?_, rfl⟩
  · cases hi : drv.insertOk <;> simp [SqliteManager.insertIntoTable]
  · by_cases hi : drv.insertOk = true
    · simp [SqliteManager.insertIntoTable, hi]
    · simp [SqliteManager.insertIntoTable, hi]

theorem SettingsManager.read_of_open (F : QtParameters) (drv : Driver) (fuel : Nat)
    (key : String) (self : SettingsManager) (st : Storage) (path : String)
    (hdb : self.m_Database = some path) :
    ∃ r, SettingsManager.read F drv fuel key self st = some r ∧
      r.self = self ∧ r.storage = st ∧ r.events = [] ∧
      r.result = (match (if drv.selectOk = true then
            rowsNamed key (st path self.m_SettingsTableName) else []) with
        | row :: _ =>
          ((QVariant.byteArray row.setting_value).convert F row.setting_type).1
        | [] => QVariant.invalid) := by
  have hopen : self.isOpen = true := by simp [SettingsManager.isOpen, hdb]
  unfold SettingsManager.read
  rw [SettingsManager.DATABASE_CHECK_of_open drv fuel self hopen]
  simp only [hdb, SqliteManager.getFromTable_name]
  split <;> rename_i heq
  · exact ⟨_, rfl, rfl, rfl, rfl, by
      simp [Setting.at, COL_SETTING_VALUE, COL_SETTING_NAME, COL_SETTING_TYPE,
        QVariant.toInt_int]⟩
  · exact ⟨_, rfl, rfl, rfl, rfl, rfl⟩

theorem rowsNamed_append (key : String) (xs ys : List Setting) :
    rowsNamed key (xs ++ ys) = rowsNamed key xs ++ rowsNamed key ys := by
  simp [rowsNamed]

/-! ## The instance registry -/

theorem reduceOption_set_none (l : List (Option Nat)) (i a : Nat)
    (hget : l[i]? = some (some a)) (hnd : l.reduceOption.Nodup) :
    (l.set i none).reduceOption = l.reduceOption.filter fun x => decide (x ≠ a) := by
  induction l generalizing i with
  | nil => simp at hget
  | cons x xs ih =>
    cases i with
    | zero =>
      simp only [List.getElem?_cons_zero, Option.some.injEq] at hget
      subst hget
      rw [List.reduceOption_cons_of_some] at hnd
      have hnot : a ∉ xs.reduceOption := (List.nodup_cons.1 hnd).1
      simp only [List.set_cons_zero, List.reduceOption_cons_of_none,
        List.reduceOption_cons_of_some]
      rw [List.filter_cons_of_neg (by simp)]
      symm
      rw [List.filter_eq_self]
      intro y hy
      have : y ≠ a := fun h => hnot (h ▸ hy)
      simpa using this
    | succ j =>
      simp only [List.getElem?_cons_succ] at hget
      cases x with
      | none =>
        rw [List.reduceOption_cons_of_none] at hnd
        simp only [List.set_cons_succ, List.reduceOption_cons_of_none]
        exact ih j hget hnd
      | some b =>
        rw [List.reduceOption_cons_of_some] at hnd
        have hb : b ∉ xs.reduceOption := (List.nodup_cons.1 hnd).1
        have ha : a ∈ xs.reduceOption := by
          rw [List.reduceOption_mem_iff]
          exact List.getElem?_mem hget
        have hne : b ≠ a := fun h => hb (h ▸ ha)
        simp only [List.set_cons_succ, List.reduceOption_cons_of_some]
        rw [List.filter_cons_of_pos (by simpa using hne), ih j hget (List.nodup_cons.1 hnd).2]

theorem Process.consistent_initial : Process.initial.consistent := by
  simp [Process.consistent, Process.initial]

theorem Process.consistent_construct (appDataLocation : String) (address : Nat)
    (databaseName tableName : String) (p : Process) (hp : p.consistent)
    (hfree : ∀ o ∈ p.objects, o.address ≠ address) :
    (SettingsManager.construct appDataLocation address databaseName tableName p).consistent := by
  obtain ⟨h1, h2, h3, h4⟩ := hp
  refine ⟨?_, ?_, ?_, ?_⟩
  · simp [SettingsManager.construct, h1]
  · simp [SettingsManager.construct, List.reduceOption_append, h2]
  · simp only [SettingsManager.construct, List.map_append, List.map_cons, List.map_nil]
    rw [List.nodup_append]
    refine ⟨h3, List.nodup_singleton _, ?_⟩
    intro x hx hx2
    rw [List.mem_singleton] at hx2
    subst hx2
    obtain ⟨o, ho, hoa⟩ := List.mem_map.1 hx
    exact hfree o ho hoa
  · intro o ho
    simp only [SettingsManager.construct, List.mem_append, List.mem_singleton] at ho ⊢
    rcases ho with ho | ho
    · have hget := h4 o ho
      have hlt : o.m_InstanceIndex < p.m_Instances.length := by
        by_contra hcon
        rw [List.getElem?_eq_none (by omega)] at hget
        cases hget
      rw [List.getElem?_append_left hlt]
      exact hget
    · subst ho
      simp [h1]

theorem Process.consistent_destruct (self : SettingsManager) (p : Process) (hp : p.consistent)
    (hself : self ∈ p.objects) :
    ∃ q, SettingsManager.destruct self p = some q ∧ q.consistent ∧
      q.m_Instances.length = p.m_Instances.length ∧
      q.m_InstanceLastIndex = p.m_InstanceLastIndex ∧
      q.m_Instances[self.m_InstanceIndex]? = some none ∧
      ∀ o ∈ q.objects, o ∈ p.objects := by
  obtain ⟨h1, h2, h3, h4⟩ := hp
  have hget := h4 self hself
  have hlt : self.m_InstanceIndex < p.m_Instances.length := by
    by_contra hcon
    rw [List.getElem?_eq_none (by omega)] at hget
    cases hget
  refine ⟨{ p with
      m_Instances := p.m_Instances.set self.m_InstanceIndex none
      objects := p.objects.filter fun o => decide (o.address ≠ self.address) },
    by simp [SettingsManager.destruct, hlt], ⟨?_, ?_, ?_, ?_⟩, ?_, rfl, ?_, ?_⟩
  · simp [h1]
  · show (p.m_Instances.set self.m_InstanceIndex none).reduceOption
      = (p.objects.filter fun o => decide (o.address ≠ self.address)).map
          SettingsManager.address
    rw [reduceOption_set_none _ _ _ hget (h2 ▸ h3), h2, List.filter_map]
    rfl
  · show ((p.objects.filter fun o => decide (o.address ≠ self.address)).map
      SettingsManager.address).Nodup
    exact List.Nodup.sublist ((List.filter_sublist p.objects).map SettingsManager.address) h3
  · intro o ho
    have ho2 : o ∈ p.objects ∧ o.address ≠ self.address := by
      simpa using ho
    have hne : self.m_InstanceIndex ≠ o.m_InstanceIndex := by
      intro heq
      have := h4 o ho2.1
      rw [← heq, hget] at this
      simp only [Option.some.injEq] at this
      exact ho2.2 this.symm
    show (p.m_Instances.set self.m_InstanceIndex none)[o.m_InstanceIndex]?
      = some (some o.address)
    rw [List.getElem?_set_ne hne]
    exact h4 o ho2.1
  · simp
  · show (p.m_Instances.set self.m_InstanceIndex none)[self.m_InstanceIndex]? = some none
    simp [List.getElem?_set_self hlt]
  · intro o ho
    have ho2 : o ∈ p.objects ∧ o.address ≠ self.address := by
      simpa using ho
    exact ho2.1

theorem Process.step_consistent (appDataLocation : String) (op : Lifecycle) (p q : Process)
    (hp : p.consistent) (hstep : p.step appDataLocation op = some q) :
    q.consistent ∧
      q.m_InstanceLastIndex = p.m_InstanceLastIndex + Lifecycle.constructions [op] ∧
      ∀ o ∈ q.objects, o ∈ p.objects ∨ p.m_InstanceLastIndex ≤ o.m_InstanceIndex := by
  cases op with
  | construct address databaseName tableName =>
    simp only [Process.step] at hstep
    split at hstep
    · cases hstep
    · rename_i hany
      have hfree : ∀ o ∈ p.objects, o.address ≠ address := by
        intro o ho heq
        apply hany
        rw [List.any_eq_true]
        exact ⟨o, ho, by simpa using heq⟩
      simp only [Option.some.injEq] at hstep
      subst hstep
      refine ⟨Process.consistent_construct _ _ _ _ p hp hfree, ?_, ?_⟩
      · simp [SettingsManager.construct, Lifecycle.constructions]
      · intro o ho
        simp only [SettingsManager.construct, List.mem_append, List.mem_singleton] at ho
        rcases ho with ho | ho
        · exact Or.inl ho
        · right
          subst ho
          exact Nat.le_refl _
  | destroy address =>
    simp only [Process.step] at hstep
    split at hstep
    · cases hstep
    · rename_i self hfind
      have hmem : self ∈ p.objects := List.mem_of_find?_eq_some hfind
      obtain ⟨r, hr, hcons, -, hidx, -, hobj⟩ := Process.consistent_destruct self p hp hmem
      rw [hr] at hstep
      simp only [Option.some.injEq] at hstep
      subst hstep
      exact ⟨hcons, by simp [hidx, Lifecycle.constructions], fun o ho => Or.inl (hobj o ho)⟩

theorem Process.index_lt_of_consistent (p : Process) (hp : p.consistent) :
    ∀ o ∈ p.objects, o.m_InstanceIndex < p.m_InstanceLastIndex := by
  intro o ho
  obtain ⟨h1, -, -, h4⟩ := hp
  have hget := h4 o ho
  by_contra hcon
  rw [List.getElem?_eq_none (by omega)] at hget
  cases hget

theorem Process.run_consistent (appDataLocation : String) (ops : List Lifecycle)
    (p q : Process) (hp : p.consistent) (hrun : Process.run appDataLocation ops p = some q) :
    q.consistent ∧
      q.m_InstanceLastIndex = p.m_InstanceLastIndex + Lifecycle.constructions ops ∧
      ∀ o ∈ q.objects, o ∈ p.objects ∨ p.m_InstanceLastIndex ≤ o.m_InstanceIndex := by
  induction ops generalizing p with
  | nil =>
    simp only [Process.run, Option.some.injEq] at hrun
    subst hrun
    exact ⟨hp, by simp [Lifecycle.constructions], fun o ho => Or.inl ho⟩
  | cons op ops ih =>
    simp only [Process.run] at hrun
    split at hrun
    · cases hrun
    · rename_i r hstep
      obtain ⟨hr, hidx, hobj⟩ := Process.step_consistent appDataLocation op p r hp hstep
      obtain ⟨hq, hidx2, hobj2⟩ := ih r hr hrun
      refine ⟨hq, ?_, ?_⟩
      · rw [hidx2, hidx]
        cases op <;> simp only [Lifecycle.constructions] <;> omega
      · intro o ho
        rcases hobj2 o ho with h | h
        · exact hobj o h
        · right
          omega

theorem getElem?_unique_of_nodup (l : List (Option Nat)) (hnd : l.reduceOption.Nodup)
    (i j a : Nat) (hi : l[i]? = some (some a)) (hj : l[j]? = some (some a)) : i = j := by
  induction l generalizing i j with
  | nil => simp at hi
  | cons x xs ih =>
    have hmem : ∀ k, xs[k]? = some (some a) → a ∈ xs.reduceOption := fun k hk => by
      rw [List.reduceOption_mem_iff]
      exact List.getElem?_mem hk
    cases x with
    | none =>
      rw [List.reduceOption_cons_of_none] at hnd
      cases i with
      | zero => simp at hi
      | succ i =>
        cases j with
        | zero => simp at hj
        | succ j =>
          simp only [List.getElem?_cons_succ] at hi hj
          rw [ih hnd i j hi hj]
    | some b =>
      rw [List.reduceOption_cons_of_some] at hnd
      obtain ⟨hb, hnd2⟩ := List.nodup_cons.1 hnd
      cases i with
      | zero =>
        cases j with
        | zero => rfl
        | succ j =>
          simp only [List.getElem?_cons_zero, Option.some.injEq] at hi
          simp only [List.getElem?_cons_succ] at hj
          exact (hb (hi ▸ hmem j hj)).elim
      | succ i =>
        cases j with
        | zero =>
          simp only [List.getElem?_cons_zero, Option.some.injEq] at hj
          simp only [List.getElem?_cons_succ] at hi
          exact (hb (hj ▸ hmem i hi)).elim
        | succ j =>
          simp only [List.getElem?_cons_succ] at hi hj
          rw [ih hnd2 i j hi hj]

theorem SettingsManager.emitToInstances_eq (settingName : String) (old new : QVariant)
    (l : List (Option Nat)) :
    SettingsManager.emitToInstances settingName old new l
      = l.reduceOption.map fun man => Event.settingChanged man settingName old new := by
  induction l with
  | nil => rfl
  | cons x xs ih =>
    cases x with
    | none => simp [SettingsManager.emitToInstances, ih, List.reduceOption_cons_of_none]
    | some man =>
      simp [SettingsManager.emitToInstances, SettingsManager.emitSettingChanged, ih,
        List.reduceOption_cons_of_some]

theorem Event.changesOf_append (man : Nat) (xs ys : List Event) :
    Event.changesOf man (xs ++ ys) = Event.changesOf man xs ++ Event.changesOf man ys := by
  induction xs with
  | nil => rfl
  | cons e xs ih =>
    cases e with
    | settingChanged sender name old new =>
      simp only [List.cons_append, Event.changesOf]
      split <;> simp [ih]
    | _ => simpa [Event.changesOf] using ih

theorem Event.changesOf_broadcast (man : Nat) (settingName : String) (old new : QVariant)
    (l : List Nat) (hnd : l.Nodup) :
    Event.changesOf man (l.map fun a => Event.settingChanged a settingName old new)
      = if man ∈ l then [(settingName, old, new)] else [] := by
  induction l with
  | nil => rfl
  | cons a l ih =>
    obtain ⟨ha, hnd2⟩ := List.nodup_cons.1 hnd
    simp only [List.map_cons, Event.changesOf, ih hnd2]
    by_cases h : a = man
    · subst h
      simp [ha]
    · have h2 : ¬ man = a := fun e => h e.symm
      simp [h, h2]

theorem Process.changesOf_emit (F : QtParameters) (p : Process) (hp : p.consistent)
    (settingName : String) (old new : QVariant) (man : Nat) :
    Event.changesOf man
        (SettingsManager.emitSettingChangedInAllInstances F p.m_Instances settingName old new)
      = if QVariant.equals F old new = false ∧ man ∈ p.objects.map SettingsManager.address
          then [(settingName, old, new)] else [] := by
  obtain ⟨-, h2, h3, -⟩ := hp
  unfold SettingsManager.emitSettingChangedInAllInstances
  by_cases hne : QVariant.equals F old new = false
  · rw [if_pos hne, SettingsManager.emitToInstances_eq, h2,
      Event.changesOf_broadcast man settingName old new _ h3]
    simp [hne]
  · simp [hne, Event.changesOf]

theorem SettingsManager.read_of_conn (F : QtParameters) (drv : Driver) (fuel : Nat)
    (key : String) (self : SettingsManager) (st : Storage) (path : String)
    (hconn : (SettingsManager.openDatabase drv self).1.m_Database = some path) :
    ∃ r, SettingsManager.read F drv (fuel + 1) key self st = some r ∧
      r.self = (SettingsManager.openDatabase drv self).1 ∧ r.storage = st ∧
      r.result = (match (if drv.selectOk = true then
            rowsNamed key (st path self.m_SettingsTableName) else []) with
        | row :: _ =>
          ((QVariant.byteArray row.setting_value).convert F row.setting_type).1
        | [] => QVariant.invalid) := by
  unfold SettingsManager.read
  rw [SettingsManager.DATABASE_CHECK_eq drv fuel self path hconn]
  simp only [hconn, SettingsManager.openDatabase_table, SqliteManager.getFromTable_name]
  split <;> rename_i heq
  · exact ⟨_, rfl, rfl, rfl, by
      simp [Setting.at, COL_SETTING_VALUE, COL_SETTING_NAME, COL_SETTING_TYPE,
        QVariant.toInt_int]⟩
  · exact ⟨_, rfl, rfl, rfl, rfl⟩

theorem SettingsManager.remove_of_conn (drv : Driver) (fuel : Nat) (key : String)
    (self : SettingsManager) (st : Storage) (path : String)
    (hconn : (SettingsManager.openDatabase drv self).1.m_Database = some path) :
    ∃ r, SettingsManager.remove drv (fuel + 1) key self st = some r ∧
      r.result = drv.deleteOk ∧
      r.self = (SettingsManager.openDatabase drv self).1 ∧
      r.storage = (if drv.deleteOk = true then
          st.setRows path self.m_SettingsTableName
            ((st path self.m_SettingsTableName).filter fun r =>
              !decide (r.setting_name = key))
        else st) := by
  unfold SettingsManager.remove
  rw [SettingsManager.DATABASE_CHECK_eq drv fuel self path hconn]
  simp only [hconn, SettingsManager.openDatabase_table]
  refine ⟨_, rfl, ?_, rfl, ?_⟩
  · cases hd : drv.deleteOk <;>
      simp [SqliteManager.deleteInTable, SqliteManager.wellFormed_name]
  · cases hd : drv.deleteOk <;>
      simp [SqliteManager.deleteInTable, SqliteManager.wellFormed_name,
        SqliteManager.holds_name_fun]

theorem SettingsManager.exists_of_open (drv : Driver) (fuel : Nat) (key : String)
    (self : SettingsManager) (st : Storage) (path : String)
    (hdb : self.m_Database = some path) :
    ∃ e, SettingsManager.exists drv fuel key self st = some e ∧
      e.self = self ∧ e.storage = st ∧
      e.result = !(if drv.selectOk = true then
        rowsNamed key (st path self.m_SettingsTableName) else []).isEmpty := by
  have hopen : self.isOpen = true := by simp [SettingsManager.isOpen, hdb]
  unfold SettingsManager.exists
  rw [SettingsManager.DATABASE_CHECK_of_open drv fuel self hopen]
  simp only [hdb, SqliteManager.exists, SqliteManager.getFromTable_name]
  exact ⟨_, rfl, rfl, rfl, rfl⟩

theorem Event.changesOf_opened (man sender : Nat) (path table : String) (c : Prop)
    [Decidable c] :
    Event.changesOf man (if c then
        [Event.databaseOpened sender,
         Event.createTable (some path) SettingsManager.columns table]
      else []) = [] := by
  split <;> rfl

/-! ## The claims -/

/-- C2, at the failing input: after `write("theme", "dark")` on an empty table
the row of `theme` holds the text `dark` with the type tag 10, and `read`
returns it; `write("theme", "light")` then succeeds and notifies the living
instance at 300 once, but with the invalid variant as the old value instead of
`dark`: the payload is decoded with the type id `toInt` reads out of the
payload itself (0), not with the stored tag. -/
theorem write_reports_old_value_by_payload_tag :
    (SettingsManager.write Sample.format Sample.okDriver Sample.registry 1 "theme"
        (QVariant.string "dark") Sample.manager Sample.emptyStorage).map
        (fun w => w.storage "/data/app.db" "settings")
      = some (Sample.themeStorage "/data/app.db" "settings") ∧
    (SettingsManager.read Sample.format Sample.okDriver 1 "theme" Sample.manager
        Sample.themeStorage).map (fun r => r.result) = some (QVariant.string "dark") ∧
    (SettingsManager.write Sample.format Sample.okDriver Sample.registry 1 "theme"
        (QVariant.string "light") Sample.manager Sample.themeStorage).map
        (fun w => (w.result, Event.changesOf 300 w.events))
      = some (true, [("theme", QVariant.invalid, QVariant.string "light")]) := by
  decide

/-- C3, at the failing input: after `write("theme", "dark")` on an empty table
the row of `theme` holds the text `dark`, and `read` returns it; a second
`write("theme", "dark")` with the same value still notifies the living
instance at 300, the old value being reported as the invalid variant. -/
theorem write_same_value_still_notifies :
    (SettingsManager.write Sample.format Sample.okDriver Sample.registry 1 "theme"
        (QVariant.string "dark") Sample.manager Sample.emptyStorage).map
        (fun w => w.storage "/data/app.db" "settings")
      = some (Sample.themeStorage "/data/app.db" "settings") ∧
    (SettingsManager.read Sample.format Sample.okDriver 1 "theme" Sample.manager
        Sample.themeStorage).map (fun r => r.result) = some (QVariant.string "dark") ∧
    (SettingsManager.write Sample.format Sample.okDriver Sample.registry 1 "theme"
        (QVariant.string "dark") Sample.manager Sample.themeStorage).map
        (fun w => (w.result, Event.changesOf 300 w.events))
      = some (true, [("theme", QVariant.invalid, QVariant.string "dark")]) := by
  decide

/-- C4 fails as stated: on a storage that refuses the insert,
`write("theme", "dark")` for a key without a row returns false and still
notifies the living instance at 300. -/
theorem failed_insert_still_notifies :
    (SettingsManager.write Sample.format Sample.readOnlyDriver Sample.registry 1 "theme"
        (QVariant.string "dark") Sample.manager Sample.emptyStorage).map
        (fun w => (w.result, Event.changesOf 300 w.events))
      = some (false, [("theme", QVariant.string "", QVariant.string "dark")]) := by
  decide

/-- C4 as amended: when the statement `write` issues, the update of a found
row or the insert of a new one, reports failure, `write` returns false and
the storage is unchanged; the notifications are not held back, they are those
of the same `write` on a storage that executes the statement. -/
theorem failed_write_keeps_storage (F : QtParameters) (drv : Driver)
    (m_Instances : List (Option Nat)) (fuel : Nat) (key : String) (value : QVariant)
    (self : SettingsManager) (st : Storage) (path : String)
    (hconn : (SettingsManager.openDatabase drv self).1.m_Database = some path)
    (hupd : ∀ row rest, SqliteManager.getFromTable drv.selectOk st (some path)
        self.m_SettingsTableName [(COL_SETTING_NAME, key, "AND")] = row :: rest →
      drv.updateOk = false)
    (hins : SqliteManager.getFromTable drv.selectOk st (some path)
        self.m_SettingsTableName [(COL_SETTING_NAME, key, "AND")] = [] →
      drv.insertOk = false) :
    ∃ w, SettingsManager.write F drv m_Instances (fuel + 1) key value self st = some w ∧
      w.result = false ∧ w.storage = st ∧
      ∃ w2, SettingsManager.write F { drv with insertOk := true, updateOk := true }
          m_Instances (fuel + 1) key value self st = some w2 ∧
        w2.result = true ∧ w2.events = w.events := by
  have hconn2 : (SettingsManager.openDatabase
      { drv with insertOk := true, updateOk := true } self).1.m_Database = some path := hconn
  rw [SqliteManager.getFromTable_name] at hupd hins
  by_cases hsel : drv.selectOk = true
  · simp only [hsel, if_true] at hupd hins
    cases hrows : rowsNamed key (st path self.m_SettingsTableName) with
    | nil =>
      obtain ⟨w, hw, hres, -, hst, hev⟩ := SettingsManager.write_of_absent F drv m_Instances
        fuel key value self st path hconn (fun _ => hrows)
      obtain ⟨w2, hw2, hres2, -, -, hev2⟩ := SettingsManager.write_of_absent F
        { drv with insertOk := true, updateOk := true } m_Instances fuel key value self st
        path hconn2 (fun _ => hrows)
      have hi := hins hrows
      refine ⟨w, hw, by rw [hres, hi], by rw [hst, hi]; simp, w2, hw2, hres2, ?_⟩
      rw [hev, hev2]
    | cons row rest =>
      obtain ⟨w, hw, hres, -, hst, hev⟩ := SettingsManager.write_of_found F drv m_Instances
        fuel key value self st path row rest hconn hsel hrows
      obtain ⟨w2, hw2, hres2, -, -, hev2⟩ := SettingsManager.write_of_found F
        { drv with insertOk := true, updateOk := true } m_Instances fuel key value self st
        path row rest hconn2 hsel hrows
      have hu := hupd row rest hrows
      refine ⟨w, hw, by rw [hres, hu], by rw [hst, hu]; simp, w2, hw2, hres2, ?_⟩
      rw [hev, hev2]
  · have hselF : drv.selectOk = false := by simpa using hsel
    simp only [hsel, if_false] at hins
    obtain ⟨w, hw, hres, -, hst, hev⟩ := SettingsManager.write_of_absent F drv m_Instances
      fuel key value self st path hconn (fun h => absurd h hsel)
    obtain ⟨w2, hw2, hres2, -, -, hev2⟩ := SettingsManager.write_of_absent F
      { drv with insertOk := true, updateOk := true } m_Instances fuel key value self st
      path hconn2 (fun h => absurd h hsel)
    have hi := hins (by simp)
    refine ⟨w, hw, by rw [hres, hi], by rw [hst, hi]; simp, w2, hw2, hres2, ?_⟩
    rw [hev, hev2]

/-- A run of amended C4: a refused insert of `theme`. -/
theorem failed_write_keeps_storage_witness :
    ∃ w, SettingsManager.write Sample.format Sample.readOnlyDriver Sample.registry 1 "theme"
        (QVariant.string "dark") Sample.manager Sample.emptyStorage = some w ∧
      w.result = false ∧ w.storage = Sample.emptyStorage ∧
      ∃ w2, SettingsManager.write Sample.format
          { Sample.readOnlyDriver with insertOk := true, updateOk := true }
          Sample.registry 1 "theme" (QVariant.string "dark") Sample.manager
          Sample.emptyStorage = some w2 ∧
        w2.result = true ∧ w2.events = w.events :=
  failed_write_keeps_storage Sample.format Sample.readOnlyDriver Sample.registry 0 "theme"
    (QVariant.string "dark") Sample.manager Sample.emptyStorage "/data/app.db"
    (by decide) (fun _ _ _ => rfl) (fun _ => rfl)

/-- C5 fails as stated for the empty text: `write("note", "")` for a key
without a row succeeds and inserts the row, and the living instance at 300
receives no notification, the value being equal to the empty marker. -/
theorem first_write_of_empty_text_is_silent :
    (SettingsManager.write Sample.format Sample.okDriver Sample.registry 1 "note"
        (QVariant.string "") Sample.manager Sample.emptyStorage).map
        (fun w => (w.result, w.storage "/data/app.db" "settings", Event.changesOf 300 w.events))
      = some (true, [⟨"note", [], 10⟩], []) := by
  decide

/-- C5 as amended: for a key without a row, a successful `write` adds exactly
one row for the key, after the rows already there; every living instance
receives exactly one change notification, `(key, "", value)`, when the value
differs from the empty text, the marker of an absent old value, and none when
the value equals it. -/
theorem first_write_inserts_and_notifies (F : QtParameters) (appDataLocation : String)
    (ops : List Lifecycle) (p : Process) (drv : Driver) (fuel : Nat) (key : String)
    (value : QVariant) (self : SettingsManager) (st : Storage) (path : String)
    (hp : Process.run appDataLocation ops Process.initial = some p)
    (hconn : (SettingsManager.openDatabase drv self).1.m_Database = some path)
    (hins : drv.insertOk = true)
    (habsent : rowsNamed key (st path self.m_SettingsTableName) = []) :
    ∃ w, SettingsManager.write F drv p.m_Instances (fuel + 1) key value self st = some w ∧
      w.result = true ∧
      w.storage path self.m_SettingsTableName
        = st path self.m_SettingsTableName ++
            [⟨key, value.toByteArray F, (value.type : Int)⟩] ∧
      rowsNamed key (w.storage path self.m_SettingsTableName)
        = [⟨key, value.toByteArray F, (value.type : Int)⟩] ∧
      ∀ o ∈ p.objects,
        Event.changesOf o.address w.events
          = if QVariant.equals F (QVariant.string "") value = false then
              [(key, QVariant.string "", value)]
            else [] := by
  obtain ⟨hcons, -, -⟩ := Process.run_consistent appDataLocation ops _ p
    Process.consistent_initial hp
  obtain ⟨w, hw, hres, -, hst, hev⟩ := SettingsManager.write_of_absent F drv p.m_Instances
    fuel key value self st path hconn (fun _ => habsent)
  have hrows : w.storage path self.m_SettingsTableName
      = st path self.m_SettingsTableName ++
          [⟨key, value.toByteArray F, (value.type : Int)⟩] := by
    rw [hst, if_pos hins, Storage.setRows_same]
  refine ⟨w, hw, by rw [hres, hins], hrows, ?_, ?_⟩
  · rw [hrows, rowsNamed_append, habsent]
    simp [rowsNamed]
  · intro o ho
    rw [hev, Event.changesOf_append, Event.changesOf_opened, Process.changesOf_emit F p hcons]
    have hmem : o.address ∈ p.objects.map SettingsManager.address :=
      List.mem_map.2 ⟨o, ho, rfl⟩
    simp [hmem]

/-- A run of amended C5: the first `write("theme", "dark")`, with the
instances at 100 and 300 living. -/
theorem first_write_inserts_and_notifies_witness :
    ∃ w, SettingsManager.write Sample.format Sample.okDriver Sample.process.m_Instances 1
        "theme" (QVariant.string "dark") Sample.manager Sample.emptyStorage = some w ∧
      w.result = true ∧
      w.storage "/data/app.db" Sample.manager.m_SettingsTableName
        = Sample.emptyStorage "/data/app.db" Sample.manager.m_SettingsTableName ++
            [⟨"theme", (QVariant.string "dark").toByteArray Sample.format,
              ((QVariant.string "dark").type : Int)⟩] ∧
      rowsNamed "theme" (w.storage "/data/app.db" Sample.manager.m_SettingsTableName)
        = [⟨"theme", (QVariant.string "dark").toByteArray Sample.format,
            ((QVariant.string "dark").type : Int)⟩] ∧
      ∀ o ∈ Sample.process.objects,
        Event.changesOf o.address w.events
          = if QVariant.equals Sample.format (QVariant.string "") (QVariant.string "dark")
                = false then
              [("theme", QVariant.string "", QVariant.string "dark")]
            else [] :=
  first_write_inserts_and_notifies Sample.format "/data" Sample.lifecycle Sample.process
    Sample.okDriver 0 "theme" (QVariant.string "dark") Sample.manager Sample.emptyStorage
    "/data/app.db" (by decide) (by decide) (by decide) (by decide)

/-- C6: for every key and every table state, when the delete succeeds,
`remove(key)` returns true and a following `exists(key)` returns false: both
use the one predicate `setting_name = key`, so that no row `exists` would find
is left. -/
theorem remove_then_exists_false (drv drvE : Driver) (fuel fuelE : Nat) (key : String)
    (self : SettingsManager) (st : Storage) (path : String)
    (hconn : (SettingsManager.openDatabase drv self).1.m_Database = some path)
    (hdel : drv.deleteOk = true) :
    ∃ r, SettingsManager.remove drv (fuel + 1) key self st = some r ∧ r.result = true ∧
      ∃ e, SettingsManager.exists drvE fuelE key r.self r.storage = some e ∧
        e.result = false := by
  obtain ⟨r, hr, hres, hself, hst⟩ := SettingsManager.remove_of_conn drv fuel key self st
    path hconn
  have hdb : r.self.m_Database = some path := by rw [hself, hconn]
  obtain ⟨e, he, -, -, hval⟩ := SettingsManager.exists_of_open drvE fuelE key r.self
    r.storage path hdb
  refine ⟨r, hr, by rw [hres, hdel], e, he, ?_⟩
  rw [hval, hst, hself, SettingsManager.openDatabase_table, if_pos hdel, Storage.setRows_same]
  have hnone : rowsNamed key ((st path self.m_SettingsTableName).filter fun r =>
      !decide (r.setting_name = key)) = [] := by
    simp [rowsNamed, List.filter_filter]
  rw [hnone]
  simp

/-- A run of C6: `remove("theme")` on the table that holds `theme`. -/
theorem remove_then_exists_false_witness :
    ∃ r, SettingsManager.remove Sample.okDriver 1 "theme" Sample.manager Sample.themeStorage
        = some r ∧ r.result = true ∧
      ∃ e, SettingsManager.exists Sample.okDriver 0 "theme" r.self r.storage = some e ∧
        e.result = false :=
  remove_then_exists_false Sample.okDriver Sample.okDriver 0 0 "theme" Sample.manager
    Sample.themeStorage "/data/app.db" (by decide) (by decide)

/-- C8: after any sequence `ops` of constructions and destructions the counter
and the length of the registry are the number of constructions so far; the
instance constructed next gets that number as its index and is stored in that
slot; every living instance is found in the slot of its index, which is within
bounds, and a slot that holds a pointer is the slot of the living instance it
points to; a destruction clears the slot and keeps the length; and every
instance living after a later sequence `later` either lived before it or has
an index no instance had before. -/
theorem registry_slots_are_stable (appDataLocation : String) (ops later : List Lifecycle)
    (p q : Process)
    (hp : Process.run appDataLocation ops Process.initial = some p)
    (hq : Process.run appDataLocation later p = some q) :
    p.m_InstanceLastIndex = Lifecycle.constructions ops ∧
    p.m_Instances.length = Lifecycle.constructions ops ∧
    (∀ address databaseName tableName r,
      p.step appDataLocation (Lifecycle.construct address databaseName tableName) = some r →
      r.m_Instances[Lifecycle.constructions ops]? = some (some address) ∧
      ∃ o ∈ r.objects, o.address = address ∧
        o.m_InstanceIndex = Lifecycle.constructions ops) ∧
    (∀ o ∈ p.objects, o.m_InstanceIndex < p.m_Instances.length ∧
      p.m_Instances[o.m_InstanceIndex]? = some (some o.address)) ∧
    (∀ i a, p.m_Instances[i]? = some (some a) →
      ∃ o ∈ p.objects, o.address = a ∧ o.m_InstanceIndex = i) ∧
    (∀ o ∈ p.objects, ∃ r, SettingsManager.destruct o p = some r ∧
      r.m_Instances.length = p.m_Instances.length ∧
      r.m_Instances[o.m_InstanceIndex]? = some none) ∧
    (∀ o ∈ q.objects, o ∈ p.objects ∨
      (p.m_InstanceLastIndex ≤ o.m_InstanceIndex ∧
        ∀ o2 ∈ p.objects, o2.m_InstanceIndex < o.m_InstanceIndex)) := by
  obtain ⟨hcons, hidx, -⟩ := Process.run_consistent appDataLocation ops _ p
    Process.consistent_initial hp
  obtain ⟨-, -, hlater⟩ := Process.run_consistent appDataLocation later p q hcons hq
  have hcount : p.m_InstanceLastIndex = Lifecycle.constructions ops := by
    simpa [Process.initial] using hidx
  have hlen : p.m_Instances.length = Lifecycle.constructions ops := by
    rw [← hcount]; exact hcons.1.symm
  have hlt := Process.index_lt_of_consistent p hcons
  refine ⟨hcount, hlen, ?_, ?_, ?_, ?_, ?_⟩
  · intro address databaseName tableName r hstep
    simp only [Process.step] at hstep
    split at hstep
    · cases hstep
    · simp only [Option.some.injEq] at hstep
      subst hstep
      refine ⟨?_, ⟨address, p.m_InstanceLastIndex, appDataLocation ++ "/" ++ databaseName,
        tableName, none⟩, ?_, rfl, hcount⟩
      · simp [SettingsManager.construct, ← hlen]
      · simp [SettingsManager.construct]
  · intro o ho
    exact ⟨hcons.1 ▸ hlt o ho, hcons.2.2.2 o ho⟩
  · intro i a hia
    obtain ⟨-, h2, h3, h4⟩ := hcons
    have hmem : a ∈ p.objects.map SettingsManager.address := by
      rw [← h2, List.reduceOption_mem_iff]
      exact List.getElem?_mem hia
    obtain ⟨o, ho, hoa⟩ := List.mem_map.1 hmem
    refine ⟨o, ho, hoa, ?_⟩
    have hslot := h4 o ho
    rw [hoa] at hslot
    exact getElem?_unique_of_nodup p.m_Instances (h2 ▸ h3) _ _ a hslot hia
  · intro o ho
    obtain ⟨r, hr, -, hl, -, hslot, -⟩ := Process.consistent_destruct o p hcons ho
    exact ⟨r, hr, hl, hslot⟩
  · intro o ho
    rcases hlater o ho with h | h
    · exact Or.inl h
    · exact Or.inr ⟨h, fun o2 ho2 => Nat.lt_of_lt_of_le (hlt o2 ho2) h⟩

/-- A run of C8: three constructions and a destruction, then a construction at
the freed address, which gets the new index 3. -/
theorem registry_slots_are_stable_witness :
    Sample.process.m_InstanceLastIndex = Lifecycle.constructions Sample.lifecycle ∧
    Sample.process.m_Instances.length = Lifecycle.constructions Sample.lifecycle ∧
    (∀ address databaseName tableName r,
      Sample.process.step "/data" (Lifecycle.construct address databaseName tableName)
        = some r →
      r.m_Instances[Lifecycle.constructions Sample.lifecycle]? = some (some address) ∧
      ∃ o ∈ r.objects, o.address = address ∧
        o.m_InstanceIndex = Lifecycle.constructions Sample.lifecycle) ∧
    (∀ o ∈ Sample.process.objects, o.m_InstanceIndex < Sample.process.m_Instances.length ∧
      Sample.process.m_Instances[o.m_InstanceIndex]? = some (some o.address)) ∧
    (∀ i a, Sample.process.m_Instances[i]? = some (some a) →
      ∃ o ∈ Sample.process.objects, o.address = a ∧ o.m_InstanceIndex = i) ∧
    (∀ o ∈ Sample.process.objects, ∃ r, SettingsManager.destruct o Sample.process = some r ∧
      r.m_Instances.length = Sample.process.m_Instances.length ∧
      r.m_Instances[o.m_InstanceIndex]? = some none) ∧
    (∀ o ∈ Sample.laterProcess.objects, o ∈ Sample.process.objects ∨
      (Sample.process.m_InstanceLastIndex ≤ o.m_InstanceIndex ∧
        ∀ o2 ∈ Sample.process.objects, o2.m_InstanceIndex < o.m_InstanceIndex)) :=
  registry_slots_are_stable "/data" Sample.lifecycle
    [Lifecycle.construct 200 "app.db" "settings"] Sample.process Sample.laterProcess
    (by decide) (by decide)

/-- C9: in every registry state a sequence of constructions and destructions
leads to, and for every change whose old and new value differ,
`emitSettingChangedInAllInstances` raises `settingChanged` exactly once on
each living instance, the writer among them and whatever database or table an
instance is bound to, with the payload `(key, old, new)`; it raises nothing
else, so nothing for a cleared slot: there are as many signals as living
instances, and an address where no instance lives receives none. -/
theorem broadcast_reaches_each_living_instance_once (F : QtParameters)
    (appDataLocation : String) (ops : List Lifecycle) (p : Process) (key : String)
    (old new : QVariant)
    (hp : Process.run appDataLocation ops Process.initial = some p)
    (hne : QVariant.equals F old new = false) :
    (∀ o ∈ p.objects,
      Event.changesOf o.address
        (SettingsManager.emitSettingChangedInAllInstances F p.m_Instances key old new)
        = [(key, old, new)]) ∧
    (∀ e ∈ SettingsManager.emitSettingChangedInAllInstances F p.m_Instances key old new,
      ∃ o ∈ p.objects, e = Event.settingChanged o.address key old new) ∧
    (SettingsManager.emitSettingChangedInAllInstances F p.m_Instances key old new).length
      = p.objects.length ∧
    (∀ man, (∀ o ∈ p.objects, o.address ≠ man) →
      Event.changesOf man
        (SettingsManager.emitSettingChangedInAllInstances F p.m_Instances key old new)
        = []) := by
  obtain ⟨hcons, -, -⟩ := Process.run_consistent appDataLocation ops _ p
    Process.consistent_initial hp
  have hemit : SettingsManager.emitSettingChangedInAllInstances F p.m_Instances key old new
      = p.objects.map fun o => Event.settingChanged o.address key old new := by
    unfold SettingsManager.emitSettingChangedInAllInstances
    rw [if_pos hne, SettingsManager.emitToInstances_eq, hcons.2.1, List.map_map]
    rfl
  refine ⟨?_, ?_, ?_, ?_⟩
  · intro o ho
    rw [Process.changesOf_emit F p hcons]
    have hmem : o.address ∈ p.objects.map SettingsManager.address :=
      List.mem_map.2 ⟨o, ho, rfl⟩
    simp [hne, hmem]
  · intro e he
    rw [hemit] at he
    obtain ⟨o, ho, hoe⟩ := List.mem_map.1 he
    exact ⟨o, ho, hoe.symm⟩
  · rw [hemit, List.length_map]
  · intro man hman
    rw [Process.changesOf_emit F p hcons]
    have hmem : man ∉ p.objects.map SettingsManager.address := by
      intro h
      obtain ⟨o, ho, hoa⟩ := List.mem_map.1 h
      exact hman o ho hoa
    simp [hmem]

/-- A run of C9: the change of `theme` from `dark` to `light`, with the
instances at 100 and 300 living and the slot of the instance at 200 cleared. -/
theorem broadcast_reaches_each_living_instance_once_witness :
    (∀ o ∈ Sample.process.objects,
      Event.changesOf o.address
        (SettingsManager.emitSettingChangedInAllInstances Sample.format
          Sample.process.m_Instances "theme" (QVariant.string "dark")
          (QVariant.string "light"))
        = [("theme", QVariant.string "dark", QVariant.string "light")]) ∧
    (∀ e ∈ SettingsManager.emitSettingChangedInAllInstances Sample.format
        Sample.process.m_Instances "theme" (QVariant.string "dark") (QVariant.string "light"),
      ∃ o ∈ Sample.process.objects,
        e = Event.settingChanged o.address "theme" (QVariant.string "dark")
          (QVariant.string "light")) ∧
    (SettingsManager.emitSettingChangedInAllInstances Sample.format
        Sample.process.m_Instances "theme" (QVariant.string "dark")
        (QVariant.string "light")).length
      = Sample.process.objects.length ∧
    (∀ man, (∀ o ∈ Sample.process.objects, o.address ≠ man) →
      Event.changesOf man
        (SettingsManager.emitSettingChangedInAllInstances Sample.format
          Sample.process.m_Instances "theme" (QVariant.string "dark")
          (QVariant.string "light"))
        = []) :=
  broadcast_reaches_each_living_instance_once Sample.format "/data" Sample.lifecycle
    Sample.process "theme" (QVariant.string "dark") (QVariant.string "light")
    (by decide) (by decide)

theorem SettingsManager.openDatabase_conn (drv : Driver) (self : SettingsManager)
    (hopen : drv.openOk = true) :
    (SettingsManager.openDatabase drv self).1.m_Database = some self.target := by
  unfold SettingsManager.openDatabase SettingsManager.target SettingsManager.isOpen
  cases h : self.m_Database <;> simp [SqliteManager.openDatabase, hopen, h]

theorem SettingsManager.openDatabase_target (drv : Driver) (self : SettingsManager)
    (hopen : drv.openOk = true) :
    (SettingsManager.openDatabase drv self).1.target = self.target := by
  have h := SettingsManager.openDatabase_conn drv self hopen
  unfold SettingsManager.target at h ⊢
  rw [h]
  rfl

theorem singleRowPerKey_overwrite (key : String) (newMap : Setting)
    (hname : newMap.setting_name = key) (rows : List Setting) (h : singleRowPerKey rows) :
    singleRowPerKey (rows.map fun r => if r.setting_name = key then newMap else r) := by
  unfold singleRowPerKey at h ⊢
  have hsame : (rows.map fun r => if r.setting_name = key then newMap else r).map
      Setting.setting_name = rows.map Setting.setting_name := by
    rw [List.map_map]
    apply List.map_congr_left
    intro r _
    by_cases hr : r.setting_name = key
    · simp [hr, hname]
    · simp [hr]
  rw [hsame]
  exact h

theorem singleRowPerKey_insert (key : String) (newMap : Setting)
    (hname : newMap.setting_name = key) (rows : List Setting) (h : singleRowPerKey rows)
    (habsent : rowsNamed key rows = []) : singleRowPerKey (rows ++ [newMap]) := by
  unfold singleRowPerKey at h ⊢
  rw [List.map_append, List.nodup_append]
  refine ⟨h, List.nodup_singleton _, ?_⟩
  intro x hx hx2
  simp only [List.map_cons, List.map_nil, List.mem_singleton] at hx2
  obtain ⟨r, hr, hrx⟩ := List.mem_map.1 hx
  have hin : r ∈ rowsNamed key rows := by
    simp only [rowsNamed, List.mem_filter, decide_eq_true_eq]
    exact ⟨hr, by rw [hrx, hx2, hname]⟩
  rw [habsent] at hin
  cases hin

theorem singleRowPerKey_filter (f : Setting → Bool) (rows : List Setting)
    (h : singleRowPerKey rows) : singleRowPerKey (rows.filter f) :=
  List.Nodup.sublist ((List.filter_sublist rows).map Setting.setting_name) h

theorem SettingsManager.perform_keeps_single_row (F : QtParameters)
    (m_Instances : List (Option Nat)) (fuel : Nat) (self : SettingsManager) (st : Storage)
    (call : Call) (hopen : call.driver.openOk = true)
    (hsel : ∀ drv key value, call = Call.write drv key value → drv.selectOk = true)
    (hinv : singleRowPerKey (st self.target self.m_SettingsTableName)) :
    ∃ self2 st2, SettingsManager.perform F m_Instances (fuel + 1) self st call
        = some (self2, st2) ∧
      self2.target = self.target ∧ self2.m_SettingsTableName = self.m_SettingsTableName ∧
      singleRowPerKey (st2 self.target self.m_SettingsTableName) := by
  cases call with
  | write drv key value =>
    have hconn := SettingsManager.openDatabase_conn drv self hopen
    have hsel2 : drv.selectOk = true := hsel drv key value rfl
    cases hrows : rowsNamed key (st self.target self.m_SettingsTableName) with
    | nil =>
      obtain ⟨w, hw, -, hself, hst, -⟩ := SettingsManager.write_of_absent F drv m_Instances
        fuel key value self st self.target hconn (fun _ => hrows)
      refine ⟨w.self, w.storage, by simp [SettingsManager.perform, hw], ?_, ?_, ?_⟩
      · rw [hself]; exact SettingsManager.openDatabase_target drv self hopen
      · rw [hself]; exact SettingsManager.openDatabase_table drv self
      · rw [hst]
        split
        · rw [Storage.setRows_same]
          exact singleRowPerKey_insert key _ rfl _ hinv hrows
        · exact hinv
    | cons row rest =>
      obtain ⟨w, hw, -, hself, hst, -⟩ := SettingsManager.write_of_found F drv m_Instances
        fuel key value self st self.target row rest hconn hsel2 hrows
      refine ⟨w.self, w.storage, by simp [SettingsManager.perform, hw], ?_, ?_, ?_⟩
      · rw [hself]; exact SettingsManager.openDatabase_target drv self hopen
      · rw [hself]; exact SettingsManager.openDatabase_table drv self
      · rw [hst]
        split
        · rw [Storage.setRows_same]
          exact singleRowPerKey_overwrite key _ rfl _ hinv
        · exact hinv
  | remove drv key =>
    have hconn := SettingsManager.openDatabase_conn drv self hopen
    obtain ⟨r, hr, -, hself, hst⟩ := SettingsManager.remove_of_conn drv fuel key self st
      self.target hconn
    refine ⟨r.self, r.storage, by simp [SettingsManager.perform, hr], ?_, ?_, ?_⟩
    · rw [hself]; exact SettingsManager.openDatabase_target drv self hopen
    · rw [hself]; exact SettingsManager.openDatabase_table drv self
    · rw [hst]
      split
      · rw [Storage.setRows_same]
        exact singleRowPerKey_filter _ _ hinv
      · exact hinv

/-- C10 fails as stated: the table `settings` holds one row, named `theme`;
`write("theme", "light")` during which the select fails and the insert
succeeds returns true and leaves two rows named `theme`.  From an empty table
too: two such writes of `theme` both return true and leave two rows named
`theme`. -/
theorem failed_select_adds_second_row :
    decide (singleRowPerKey (Sample.themeStorage "/data/app.db" "settings")) = true ∧
    (SettingsManager.write Sample.format Sample.blindDriver Sample.registry 1 "theme"
        (QVariant.string "light") Sample.manager Sample.themeStorage).map
        (fun w => (w.result, (w.storage "/data/app.db" "settings").map Setting.setting_name,
          decide (singleRowPerKey (w.storage "/data/app.db" "settings"))))
      = some (true, ["theme", "theme"], false) ∧
    (SettingsManager.write Sample.format Sample.blindDriver Sample.registry 1 "theme"
        (QVariant.string "dark") Sample.manager Sample.emptyStorage).bind
        (fun w1 => (SettingsManager.write Sample.format Sample.blindDriver Sample.registry 1
          "theme" (QVariant.string "light") w1.self w1.storage).map
          fun w2 => (w1.result, w2.result,
            (w2.storage "/data/app.db" "settings").map Setting.setting_name,
            decide (singleRowPerKey (w2.storage "/data/app.db" "settings"))))
      = some (true, true, ["theme", "theme"], false) := by
  decide

/-- C10 as amended: at most one row per `setting_name` is an invariant of
`remove` and of every `write` whose select succeeds.  When the table holds at
most one row per name, it still does after any sequence of calls of `write`
and `remove` during which the database opens and the selects of the writes
succeed, whether the inserts, updates and deletes succeed or are refused:
after one call, and, from an empty table, after any sequence, no two rows have
the same name. -/
theorem single_row_per_key_is_kept (F : QtParameters) (m_Instances : List (Option Nat))
    (fuel : Nat) (calls : List Call) (self : SettingsManager) (st : Storage)
    (hopen : ∀ c ∈ calls, c.driver.openOk = true)
    (hsel : ∀ drv key value, Call.write drv key value ∈ calls → drv.selectOk = true)
    (hinv : singleRowPerKey (st self.target self.m_SettingsTableName)) :
    ∃ self2 st2, SettingsManager.performAll F m_Instances (fuel + 1) calls self st
        = some (self2, st2) ∧
      self2.target = self.target ∧ self2.m_SettingsTableName = self.m_SettingsTableName ∧
      singleRowPerKey (st2 self.target self.m_SettingsTableName) := by
  induction calls generalizing self st with
  | nil => exact ⟨self, st, rfl, rfl, rfl, hinv⟩
  | cons call calls ih =>
    obtain ⟨self1, st1, h1, htarget, htable, hinv1⟩ :=
      SettingsManager.perform_keeps_single_row F m_Instances fuel self st call
        (hopen call (List.mem_cons_self call calls))
        (fun drv key value hc => hsel drv key value (hc ▸ List.mem_cons_self call calls))
        hinv
    obtain ⟨self2, st2, h2, htarget2, htable2, hinv2⟩ := ih self1 st1
      (fun c hc => hopen c (List.mem_cons_of_mem call hc))
      (fun drv key value hc => hsel drv key value (List.mem_cons_of_mem call hc))
      (by rw [htarget, htable]; exact hinv1)
    refine ⟨self2, st2, ?_, ?_, ?_, ?_⟩
    · simp only [SettingsManager.performAll, h1, h2]
    · rw [htarget2, htarget]
    · rw [htable2, htable]
    · rw [htarget, htable] at hinv2
      exact hinv2

/-- A run of C10 as amended: from an empty table, two writes of `theme`, its
removal and a write of `volume`. -/
theorem single_row_per_key_is_kept_witness :
    ∃ self2 st2, SettingsManager.performAll Sample.format Sample.registry 1 Sample.calls
        Sample.manager Sample.emptyStorage = some (self2, st2) ∧
      self2.target = Sample.manager.target ∧
      self2.m_SettingsTableName = Sample.manager.m_SettingsTableName ∧
      singleRowPerKey (st2 Sample.manager.target Sample.manager.m_SettingsTableName) :=
  single_row_per_key_is_kept Sample.format Sample.registry 0 Sample.calls Sample.manager
    Sample.emptyStorage (by decide)
    (by
      intro drv key value h
      simp only [Sample.calls, List.mem_cons, Call.write.injEq, List.mem_singleton,
        List.not_mem_nil, or_false, reduceCtorEq, false_or] at h
      rcases h with h | h | h <;> rw [h.1])
    (by simp [singleRowPerKey, Sample.emptyStorage])

/-! ## `createTable`, the setters and the predicate builder -/

theorem SettingsManager.createTable_events (drv : Driver) (fuel : Nat)
    (self self2 : SettingsManager) (events : List Event)
    (h : SettingsManager.createTable drv fuel self = some (self2, events)) :
    (∃ init, events = init ++
        [Event.createTable self2.m_Database SettingsManager.columns
          self2.m_SettingsTableName]) ∧
      ∀ db cols t, Event.createTable db cols t ∈ events → cols = SettingsManager.columns := by
  induction fuel generalizing self self2 events with
  | zero => simp [SettingsManager.createTable] at h
  | succ fuel ih =>
    simp only [SettingsManager.createTable] at h
    by_cases ho : self.isOpen = false
    · rw [if_pos ho] at h
      cases hin : SettingsManager.createTable drv fuel (SettingsManager.openDatabase drv self).1
        with
      | none => simp [hin] at h
      | some res =>
        obtain ⟨s1, ev1⟩ := res
        obtain ⟨-, hcols⟩ := ih _ _ _ hin
        simp only [hin, Option.some.injEq, Prod.mk.injEq] at h
        obtain ⟨hs, he⟩ := h
        subst hs
        subst he
        refine ⟨⟨_, rfl⟩, ?_⟩
        intro db cols t hmem
        simp only [SettingsManager.openDatabase, ho, if_true, List.mem_append,
          List.mem_singleton, List.mem_cons, List.not_mem_nil, or_false, reduceCtorEq,
          false_or, Event.createTable.injEq] at hmem
        rcases hmem with hmem | hmem
        · exact hcols db cols t hmem
        · exact hmem.2.1
    · rw [if_neg ho] at h
      simp only [Option.some.injEq, Prod.mk.injEq] at h
      obtain ⟨hs, he⟩ := h
      subst hs
      subst he
      refine ⟨⟨[], rfl⟩, ?_⟩
      intro db cols t hmem
      simp only [List.nil_append, List.mem_singleton, Event.createTable.injEq] at hmem
      exact hmem.2.1

theorem SettingsManager.openDatabase_still_closed (drv : Driver) (self : SettingsManager)
    (hclosed : self.isOpen = false) (hfail : drv.openOk = false) :
    (SettingsManager.openDatabase drv self).1.isOpen = false := by
  have hnone : self.m_Database = none := by
    simpa [SettingsManager.isOpen] using hclosed
  simp [SettingsManager.openDatabase, SettingsManager.isOpen, hnone,
    SqliteManager.openDatabase, hfail]

theorem SettingsManager.createTable_none (drv : Driver) (fuel : Nat) (self : SettingsManager)
    (hclosed : self.isOpen = false) (hfail : drv.openOk = false) :
    SettingsManager.createTable drv fuel self = none := by
  induction fuel generalizing self with
  | zero => rfl
  | succ fuel ih =>
    have hstill : (SettingsManager.openDatabase drv self).1.isOpen = false :=
      SettingsManager.openDatabase_still_closed drv self hclosed hfail
    simp [SettingsManager.createTable, hclosed, ih _ hstill]

theorem SettingsManager.DATABASE_CHECK_none (drv : Driver) (fuel : Nat)
    (self : SettingsManager) (hclosed : self.isOpen = false) (hfail : drv.openOk = false) :
    SettingsManager.DATABASE_CHECK drv fuel self = none := by
  have hstill : (SettingsManager.openDatabase drv self).1.isOpen = false :=
    SettingsManager.openDatabase_still_closed drv self hclosed hfail
  simp [SettingsManager.DATABASE_CHECK, hclosed,
    SettingsManager.createTable_none drv fuel _ hstill hfail]

theorem SettingsManager.restartDatabase_eq (drv : Driver) (self : SettingsManager)
    (hopen : drv.openOk = true) :
    SettingsManager.restartDatabase drv self
      = ({ self with m_Database := some self.m_DatabaseName },
          (if self.isOpen = true then [Event.databaseClosed self.address] else []) ++
            [Event.databaseOpened self.address]) := by
  unfold SettingsManager.restartDatabase
  by_cases ho : self.isOpen = true
  · simp [ho, SqliteManager.openDatabase, hopen]
  · simp [ho, SqliteManager.openDatabase, hopen]

theorem SettingsManager.createTable_of_closed (drv : Driver) (fuel : Nat)
    (self : SettingsManager) (res : SettingsManager × List Event)
    (hclosed : self.isOpen = false)
    (h : SettingsManager.createTable drv fuel (SettingsManager.openDatabase drv self).1
      = some res) :
    SettingsManager.createTable drv (fuel + 1) self
      = some (res.1, ((SettingsManager.openDatabase drv self).2 ++ res.2) ++
          [Event.createTable res.1.m_Database SettingsManager.columns
            res.1.m_SettingsTableName]) := by
  simp only [SettingsManager.createTable, if_pos hclosed, h]

theorem SettingsManager.createTable_returns (drv : Driver) (fuel : Nat)
    (self : SettingsManager) (hopen : self.isOpen = true ∨ drv.openOk = true) :
    ∃ self2 events, SettingsManager.createTable drv (fuel + 2) self = some (self2, events) := by
  by_cases ho : self.isOpen = true
  · exact ⟨_, _, SettingsManager.createTable_of_open drv (fuel + 1) self ho⟩
  · have hok : drv.openOk = true := hopen.resolve_left ho
    have hclosed : self.isOpen = false := by simpa using ho
    have hop : (SettingsManager.openDatabase drv self).1.isOpen = true := by
      simp [SettingsManager.isOpen, SettingsManager.openDatabase_conn drv self hok]
    exact ⟨_, _, SettingsManager.createTable_of_closed drv (fuel + 1) self _ hclosed
      (SettingsManager.createTable_of_open drv fuel _ hop)⟩

/-- C11: `createTable` on an instance whose database is open or can be opened
returns (two units of fuel suffice), and whenever `createTable` returns, the
last request it has sent to the table engine, for the table and the
connection of the instance, carries exactly the three columns
`(setting_name, TEXT)`, `(setting_value, BLOB)`, `(setting_type, INTEGER)` in
this order, and so does every request it has sent; `getNullText` is
`NOT NULL` for each of the three, and it is the empty text exactly for a
column whose nullability flag is set. -/
theorem createTable_passes_fixed_schema (drv : Driver) (fuel : Nat) (self : SettingsManager)
    (hopen : self.isOpen = true ∨ drv.openOk = true) :
    (∃ self2 events,
      SettingsManager.createTable drv (fuel + 2) self = some (self2, events) ∧
      (∃ init, events = init ++
        [Event.createTable self2.m_Database
          [⟨false, SqliteManager.ColumnTypes.TEXT, "setting_name"⟩,
           ⟨false, SqliteManager.ColumnTypes.BLOB, "setting_value"⟩,
           ⟨false, SqliteManager.ColumnTypes.INTEGER, "setting_type"⟩]
          self2.m_SettingsTableName]) ∧
      (∀ db cols t, Event.createTable db cols t ∈ events →
        cols = [⟨false, SqliteManager.ColumnTypes.TEXT, "setting_name"⟩,
           ⟨false, SqliteManager.ColumnTypes.BLOB, "setting_value"⟩,
           ⟨false, SqliteManager.ColumnTypes.INTEGER, "setting_type"⟩])) ∧
    (∀ fuel2 self2 events,
      SettingsManager.createTable drv fuel2 self = some (self2, events) →
      (∃ init, events = init ++
        [Event.createTable self2.m_Database
          [⟨false, SqliteManager.ColumnTypes.TEXT, "setting_name"⟩,
           ⟨false, SqliteManager.ColumnTypes.BLOB, "setting_value"⟩,
           ⟨false, SqliteManager.ColumnTypes.INTEGER, "setting_type"⟩]
          self2.m_SettingsTableName]) ∧
      (∀ db cols t, Event.createTable db cols t ∈ events →
        cols = [⟨false, SqliteManager.ColumnTypes.TEXT, "setting_name"⟩,
           ⟨false, SqliteManager.ColumnTypes.BLOB, "setting_value"⟩,
           ⟨false, SqliteManager.ColumnTypes.INTEGER, "setting_type"⟩])) ∧
    (∀ c ∈ SettingsManager.columns, c.getNullText = "NOT NULL") ∧
    (∀ c : SqliteManager.ColumnDefinition, c.getNullText = "" ↔ c.isNull = true) := by
  obtain ⟨self2, events, h⟩ := SettingsManager.createTable_returns drv fuel self hopen
  refine ⟨⟨self2, events, h, SettingsManager.createTable_events drv _ self self2 events h⟩,
    fun fuel2 s2 ev h2 => SettingsManager.createTable_events drv fuel2 self s2 ev h2,
    by decide, ?_⟩
  intro c
  unfold SqliteManager.ColumnDefinition.getNullText
  cases c.isNull
  · simp only [Bool.false_eq_true, if_false, iff_false]
    decide
  · simp

/-- A run of C11: `createTable` on an instance that is not connected yet and
whose database can be opened. -/
theorem createTable_passes_fixed_schema_witness :
    (Sample.manager.isOpen = true ∨ Sample.okDriver.openOk = true) ∧
    (∃ self2 events,
      SettingsManager.createTable Sample.okDriver (0 + 2) Sample.manager
        = some (self2, events) ∧
      (∃ init, events = init ++
        [Event.createTable self2.m_Database
          [⟨false, SqliteManager.ColumnTypes.TEXT, "setting_name"⟩,
           ⟨false, SqliteManager.ColumnTypes.BLOB, "setting_value"⟩,
           ⟨false, SqliteManager.ColumnTypes.INTEGER, "setting_type"⟩]
          self2.m_SettingsTableName]) ∧
      (∀ db cols t, Event.createTable db cols t ∈ events →
        cols = [⟨false, SqliteManager.ColumnTypes.TEXT, "setting_name"⟩,
           ⟨false, SqliteManager.ColumnTypes.BLOB, "setting_value"⟩,
           ⟨false, SqliteManager.ColumnTypes.INTEGER, "setting_type"⟩])) ∧
    (∀ fuel2 self2 events,
      SettingsManager.createTable Sample.okDriver fuel2 Sample.manager
        = some (self2, events) →
      (∃ init, events = init ++
        [Event.createTable self2.m_Database
          [⟨false, SqliteManager.ColumnTypes.TEXT, "setting_name"⟩,
           ⟨false, SqliteManager.ColumnTypes.BLOB, "setting_value"⟩,
           ⟨false, SqliteManager.ColumnTypes.INTEGER, "setting_type"⟩]
          self2.m_SettingsTableName]) ∧
      (∀ db cols t, Event.createTable db cols t ∈ events →
        cols = [⟨false, SqliteManager.ColumnTypes.TEXT, "setting_name"⟩,
           ⟨false, SqliteManager.ColumnTypes.BLOB, "setting_value"⟩,
           ⟨false, SqliteManager.ColumnTypes.INTEGER, "setting_type"⟩])) ∧
    (∀ c ∈ SettingsManager.columns, c.getNullText = "NOT NULL") ∧
    (∀ c : SqliteManager.ColumnDefinition, c.getNullText = "" ↔ c.isNull = true) :=
  ⟨Or.inr (by decide),
    createTable_passes_fixed_schema Sample.okDriver 0 Sample.manager (Or.inr (by decide))⟩

theorem SettingsManager.setDatabaseName_of_relative (isAbsolutePath : String → Bool)
    (drv : Driver) (fuel : Nat) (name : String) (self : SettingsManager)
    (hopen : drv.openOk = true) (hrel : isAbsolutePath name = false) :
    SettingsManager.setDatabaseName isAbsolutePath drv (fuel + 1) name self
      = some ({ self with m_DatabaseName := name, m_Database := some name },
          [Event.databasePathChanged self.address] ++
            (if self.isOpen = true then [Event.databaseClosed self.address] else []) ++
            [Event.databaseOpened self.address,
             Event.createTable (some name) SettingsManager.columns
               self.m_SettingsTableName]) := by
  unfold SettingsManager.setDatabaseName
  rw [if_neg (by simp [hrel])]
  dsimp only
  rw [SettingsManager.restartDatabase_eq drv _ hopen,
    SettingsManager.createTable_of_open drv fuel _ (by simp [SettingsManager.isOpen])]
  simp [SettingsManager.isOpen]

/-- C12: for an instance whose database can be opened, `setSettingsTableName`
and, with a name that is not an absolute path, `setDatabaseName` return, with
the new name stored and the connection open against the new target; after
the change signal they emit `databaseClosed` once when the connection was
open before and not at all otherwise, then `databaseOpened` once, and then
`createTable` is run once more, on the new target. -/
theorem setters_restart_the_connection (isAbsolutePath : String → Bool) (drv : Driver)
    (fuel : Nat) (name : String) (self : SettingsManager)
    (hopen : drv.openOk = true) :
    SettingsManager.setSettingsTableName drv (fuel + 1) name self
      = some ({ self with
                m_SettingsTableName := name, m_Database := some self.m_DatabaseName },
          [Event.settingsTableNameChanged self.address] ++
            (if self.isOpen = true then [Event.databaseClosed self.address] else []) ++
            [Event.databaseOpened self.address,
             Event.createTable (some self.m_DatabaseName) SettingsManager.columns name]) ∧
    (isAbsolutePath name = false →
      SettingsManager.setDatabaseName isAbsolutePath drv (fuel + 1) name self
        = some ({ self with m_DatabaseName := name, m_Database := some name },
            [Event.databasePathChanged self.address] ++
              (if self.isOpen = true then [Event.databaseClosed self.address] else []) ++
              [Event.databaseOpened self.address,
               Event.createTable (some name) SettingsManager.columns
                 self.m_SettingsTableName])) := by
  constructor
  · unfold SettingsManager.setSettingsTableName
    dsimp only
    rw [SettingsManager.restartDatabase_eq drv _ hopen,
      SettingsManager.createTable_of_open drv fuel _ (by simp [SettingsManager.isOpen])]
    simp [SettingsManager.isOpen]
  · intro hrel
    exact SettingsManager.setDatabaseName_of_relative isAbsolutePath drv fuel name self
      hopen hrel

/-- A run of C12: the table and then the database of a connected instance are
changed. -/
theorem setters_restart_the_connection_witness :
    SettingsManager.setSettingsTableName Sample.okDriver 1 "profiles" Sample.openManager
      = some ({ Sample.openManager with
                m_SettingsTableName := "profiles"
                m_Database := some Sample.openManager.m_DatabaseName },
          [Event.settingsTableNameChanged Sample.openManager.address] ++
            (if Sample.openManager.isOpen = true then
              [Event.databaseClosed Sample.openManager.address] else []) ++
            [Event.databaseOpened Sample.openManager.address,
             Event.createTable (some Sample.openManager.m_DatabaseName)
               SettingsManager.columns "profiles"]) ∧
    (Sample.isAbsolutePath "profiles" = false →
      SettingsManager.setDatabaseName Sample.isAbsolutePath Sample.okDriver 1 "profiles"
          Sample.openManager
        = some ({ Sample.openManager with
                  m_DatabaseName := "profiles", m_Database := some "profiles" },
            [Event.databasePathChanged Sample.openManager.address] ++
              (if Sample.openManager.isOpen = true then
                [Event.databaseClosed Sample.openManager.address] else []) ++
              [Event.databaseOpened Sample.openManager.address,
               Event.createTable (some "profiles") SettingsManager.columns
                 Sample.openManager.m_SettingsTableName])) :=
  setters_restart_the_connection Sample.isAbsolutePath Sample.okDriver 0 "profiles"
    Sample.openManager (by decide)

/-- C13, at the failing input: on an instance that is not connected and whose
database file cannot be opened, `write`, `read`, `remove`, `exists` and
`createTable` have no result, however many nested calls of `createTable` are
allowed: `DATABASE_CHECK` calls `createTable`, which runs `DATABASE_CHECK`
again while the handle is not open. -/
theorem calls_never_return_when_database_cannot_open (fuel : Nat) :
    SettingsManager.write Sample.format Sample.unopenableDriver Sample.registry fuel "theme"
        (QVariant.string "dark") Sample.manager Sample.emptyStorage = none ∧
    SettingsManager.read Sample.format Sample.unopenableDriver fuel "theme" Sample.manager
        Sample.emptyStorage = none ∧
    SettingsManager.remove Sample.unopenableDriver fuel "theme" Sample.manager
        Sample.emptyStorage = none ∧
    SettingsManager.exists Sample.unopenableDriver fuel "theme" Sample.manager
        Sample.emptyStorage = none ∧
    SettingsManager.createTable Sample.unopenableDriver fuel Sample.manager = none := by
  have hcheck := SettingsManager.DATABASE_CHECK_none Sample.unopenableDriver fuel
    Sample.manager rfl rfl
  refine ⟨?_, ?_, ?_, ?_, ?_⟩
  · simp [SettingsManager.write, hcheck]
  · simp [SettingsManager.read, hcheck]
  · simp [SettingsManager.remove, hcheck]
  · simp [SettingsManager.exists, hcheck]
  · exact SettingsManager.createTable_none Sample.unopenableDriver fuel Sample.manager rfl rfl

/-- C14: the predicate builder writes the predicates in the order of the list,
each as `column=value`, and the join operator of a predicate between it and
the next one; the result ends with the last predicate and does not depend on
the join operator stored with it; `[(a,1,AND),(b,2,OR)]` gives `a=1 AND b=2`
and `[(a,1,AND)]` gives `a=1`, without a leading `WHERE`. -/
theorem constructWhereQuery_drops_last_join :
    (∀ column value join next rest,
      SqliteManager.constructWhereQuery ((column, value, join) :: next :: rest)
        = column ++ "=" ++ value ++ " " ++ join ++ " " ++
            SqliteManager.constructWhereQuery (next :: rest)) ∧
    (∀ column value join,
      SqliteManager.constructWhereQuery [(column, value, join)] = column ++ "=" ++ value) ∧
    (∀ init column value join join2,
      SqliteManager.constructWhereQuery (init ++ [(column, value, join)])
        = SqliteManager.constructWhereQuery (init ++ [(column, value, join2)])) ∧
    (∀ init column value join, ∃ front,
      SqliteManager.constructWhereQuery (init ++ [(column, value, join)])
        = front ++ (column ++ "=" ++ value)) ∧
    SqliteManager.constructWhereQuery [("a", "1", "AND"), ("b", "2", "OR")] = "a=1 AND b=2" ∧
    SqliteManager.constructWhereQuery [("a", "1", "AND")] = "a=1" := by
  refine ⟨fun _ _ _ _ _ => rfl, fun _ _ _ => rfl, ?_, ?_, by decide, by decide⟩
  · intro init column value join join2
    induction init with
    | nil => rfl
    | cons c init ih =>
      obtain ⟨c1, c2, c3⟩ := c
      cases init with
      | nil => simp [SqliteManager.constructWhereQuery]
      | cons d init =>
        simp only [List.cons_append] at ih
        exact congrArg (fun t => c1 ++ "=" ++ c2 ++ " " ++ c3 ++ " " ++ t) ih
  · intro init column value join
    induction init with
    | nil => exact ⟨"", by simp [SqliteManager.constructWhereQuery]⟩
    | cons c init ih =>
      obtain ⟨c1, c2, c3⟩ := c
      obtain ⟨front, hfront⟩ := ih
      cases init with
      | nil =>
        refine ⟨c1 ++ "=" ++ c2 ++ " " ++ c3 ++ " ", ?_⟩
        simp [SqliteManager.constructWhereQuery, String.append_assoc]
      | cons d init =>
        refine ⟨c1 ++ "=" ++ c2 ++ " " ++ c3 ++ " " ++ front, ?_⟩
        simp only [List.cons_append] at hfront
        have hstep : SqliteManager.constructWhereQuery
            ((c1, c2, c3) :: d :: (init ++ [(column, value, join)]))
            = c1 ++ "=" ++ c2 ++ " " ++ c3 ++ " " ++
                SqliteManager.constructWhereQuery (d :: (init ++ [(column, value, join)])) :=
          rfl
        simp only [List.cons_append]
        rw [hstep, hfront]
        simp [String.append_assoc]

/-- C17: `setDatabaseName` with an absolute path returns at once with the
instance as it was, its name, connection and table name, and without any
signal; with a name that is not absolute, and a database that can be opened,
`getDatabaseName()` afterwards is exactly the name given. -/
theorem setDatabaseName_rejects_absolute_path (isAbsolutePath : String → Bool) (drv : Driver)
    (fuel : Nat) (name : String) (self : SettingsManager) :
    (isAbsolutePath name = true →
      SettingsManager.setDatabaseName isAbsolutePath drv fuel name self = some (self, [])) ∧
    (isAbsolutePath name = false → drv.openOk = true →
      ∃ self2 events,
        SettingsManager.setDatabaseName isAbsolutePath drv (fuel + 1) name self
          = some (self2, events) ∧
        self2.getDatabaseName = name) := by
  constructor
  · intro habs
    simp [SettingsManager.setDatabaseName, habs]
  · intro hrel hopen
    exact ⟨_, _, SettingsManager.setDatabaseName_of_relative isAbsolutePath drv fuel name
      self hopen hrel, rfl⟩

/-- A run of C17: the absolute path `/tmp/x.db` and the plain name `x.db` on a
connected instance. -/
theorem setDatabaseName_rejects_absolute_path_witness :
    (Sample.isAbsolutePath "/tmp/x.db" = true →
      SettingsManager.setDatabaseName Sample.isAbsolutePath Sample.okDriver 1 "/tmp/x.db"
        Sample.openManager = some (Sample.openManager, [])) ∧
    (Sample.isAbsolutePath "x.db" = false → Sample.okDriver.openOk = true →
      ∃ self2 events,
        SettingsManager.setDatabaseName Sample.isAbsolutePath Sample.okDriver (0 + 1) "x.db"
          Sample.openManager = some (self2, events) ∧
        self2.getDatabaseName = "x.db") :=
  ⟨(setDatabaseName_rejects_absolute_path Sample.isAbsolutePath Sample.okDriver 1
      "/tmp/x.db" Sample.openManager).1,
   (setDatabaseName_rejects_absolute_path Sample.isAbsolutePath Sample.okDriver 0
      "x.db" Sample.openManager).2⟩

/-! ## Other keys -/

theorem rowsNamed_map_other (key key2 : String) (hne : key ≠ key2) (newMap : Setting)
    (hname : newMap.setting_name = key) (rows : List Setting) :
    rowsNamed key2 (rows.map fun r => if r.setting_name = key then newMap else r)
      = rowsNamed key2 rows := by
  induction rows with
  | nil => rfl
  | cons r rows ih =>
    unfold rowsNamed at ih ⊢
    by_cases h : r.setting_name = key
    · have h2 : ¬ r.setting_name = key2 := fun e => hne (h ▸ e)
      have h3 : ¬ newMap.setting_name = key2 := fun e => hne (hname ▸ e)
      simp [List.filter_cons, h, h2, h3, ih, hne]
    · simp only [List.map_cons, if_neg h, List.filter_cons, ih]

theorem rowsNamed_remove_other (key key2 : String) (hne : key ≠ key2) (rows : List Setting) :
    rowsNamed key2 (rows.filter fun r => !decide (r.setting_name = key))
      = rowsNamed key2 rows := by
  unfold rowsNamed
  rw [List.filter_filter]
  apply List.filter_congr
  intro r _
  by_cases h : r.setting_name = key2
  · have h2 : ¬ r.setting_name = key := fun e => hne (e ▸ h)
    have h3 : ¬ key2 = key := fun e => hne e.symm
    simp [h, h2, h3]
  · simp [h]

theorem Storage.rowsNamed_setRows (st : Storage) (path table key2 : String)
    (rows : List Setting) (h : rowsNamed key2 rows = rowsNamed key2 (st path table))
    (p t : String) :
    rowsNamed key2 (st.setRows path table rows p t) = rowsNamed key2 (st p t) := by
  unfold Storage.setRows
  by_cases hpt : p = path ∧ t = table
  · rw [if_pos hpt, h, hpt.1, hpt.2]
  · rw [if_neg hpt]

theorem SettingsManager.write_keeps_other_keys (F : QtParameters) (drv : Driver)
    (m_Instances : List (Option Nat)) (fuel : Nat) (key key2 : String) (value : QVariant)
    (self : SettingsManager) (st : Storage) (hne : key ≠ key2) (hopen : drv.openOk = true) :
    ∃ w, SettingsManager.write F drv m_Instances (fuel + 1) key value self st = some w ∧
      w.self.m_Database = some self.target ∧
      w.self.m_SettingsTableName = self.m_SettingsTableName ∧
      ∀ p t, rowsNamed key2 (w.storage p t) = rowsNamed key2 (st p t) := by
  have hconn := SettingsManager.openDatabase_conn drv self hopen
  by_cases hfound : drv.selectOk = true ∧
      rowsNamed key (st self.target self.m_SettingsTableName) ≠ []
  · obtain ⟨hsel, hrows⟩ := hfound
    obtain ⟨row, rest, hrr⟩ := List.exists_cons_of_ne_nil hrows
    obtain ⟨w, hw, -, hself, hst, -⟩ := SettingsManager.write_of_found F drv m_Instances
      fuel key value self st self.target row rest hconn hsel hrr
    refine ⟨w, hw, by rw [hself, hconn],
      by rw [hself]; exact SettingsManager.openDatabase_table drv self, ?_⟩
    intro p t
    rw [hst]
    split
    · exact Storage.rowsNamed_setRows st _ _ key2 _
        (rowsNamed_map_other key key2 hne _ rfl _) p t
    · rfl
  · have habsent : drv.selectOk = true →
        rowsNamed key (st self.target self.m_SettingsTableName) = [] := by
      intro hsel
      by_contra hcon
      exact hfound ⟨hsel, hcon⟩
    obtain ⟨w, hw, -, hself, hst, -⟩ := SettingsManager.write_of_absent F drv m_Instances
      fuel key value self st self.target hconn habsent
    refine ⟨w, hw, by rw [hself, hconn],
      by rw [hself]; exact SettingsManager.openDatabase_table drv self, ?_⟩
    intro p t
    rw [hst]
    split
    · apply Storage.rowsNamed_setRows
      rw [rowsNamed_append]
      have hnew : rowsNamed key2
          [(⟨key, value.toByteArray F, (value.type : Int)⟩ : Setting)] = [] := by
        simp [rowsNamed, hne]
      rw [hnew, List.append_nil]
    · rfl

theorem SettingsManager.remove_keeps_other_keys (drv : Driver) (fuel : Nat)
    (key key2 : String) (self : SettingsManager) (st : Storage) (hne : key ≠ key2)
    (hopen : drv.openOk = true) :
    ∃ rm, SettingsManager.remove drv (fuel + 1) key self st = some rm ∧
      rm.self.m_Database = some self.target ∧
      rm.self.m_SettingsTableName = self.m_SettingsTableName ∧
      ∀ p t, rowsNamed key2 (rm.storage p t) = rowsNamed key2 (st p t) := by
  have hconn := SettingsManager.openDatabase_conn drv self hopen
  obtain ⟨rm, hrm, -, hself, hst⟩ := SettingsManager.remove_of_conn drv fuel key self st
    self.target hconn
  refine ⟨rm, hrm, by rw [hself, hconn],
    by rw [hself]; exact SettingsManager.openDatabase_table drv self, ?_⟩
  intro p t
  rw [hst]
  split
  · exact Storage.rowsNamed_setRows st _ _ key2 _ (rowsNamed_remove_other key key2 hne _) p t
  · rfl

theorem SettingsManager.exists_of_conn (drv : Driver) (fuel : Nat) (key : String)
    (self : SettingsManager) (st : Storage) (path : String)
    (hconn : (SettingsManager.openDatabase drv self).1.m_Database = some path) :
    ∃ e, SettingsManager.exists drv (fuel + 1) key self st = some e ∧
      e.storage = st ∧
      e.result = !(if drv.selectOk = true then
        rowsNamed key (st path self.m_SettingsTableName) else []).isEmpty := by
  unfold SettingsManager.exists
  rw [SettingsManager.DATABASE_CHECK_eq drv fuel self path hconn]
  simp only [hconn, SettingsManager.openDatabase_table, SqliteManager.exists,
    SqliteManager.getFromTable_name]
  exact ⟨_, rfl, rfl, rfl⟩

theorem SettingsManager.read_exists_after (F : QtParameters) (drvR : Driver) (fuel : Nat)
    (key2 : String) (self self2 : SettingsManager) (st st2 : Storage)
    (r0 : Outcome QVariant) (e0 : Outcome Bool)
    (hr0 : r0.result = (match (if drvR.selectOk = true then
            rowsNamed key2 (st self.target self.m_SettingsTableName) else []) with
        | row :: _ => ((QVariant.byteArray row.setting_value).convert F row.setting_type).1
        | [] => QVariant.invalid))
    (he0 : e0.result = !(if drvR.selectOk = true then
        rowsNamed key2 (st self.target self.m_SettingsTableName) else []).isEmpty)
    (hdb : self2.m_Database = some self.target)
    (htable : self2.m_SettingsTableName = self.m_SettingsTableName)
    (hrows : ∀ p t, rowsNamed key2 (st2 p t) = rowsNamed key2 (st p t)) :
    ∃ r1 e1, SettingsManager.read F drvR (fuel + 1) key2 self2 st2 = some r1 ∧
      SettingsManager.exists drvR (fuel + 1) key2 self2 st2 = some e1 ∧
      r1.result = r0.result ∧ e1.result = e0.result := by
  obtain ⟨r1, hr1, -, -, -, hv1⟩ := SettingsManager.read_of_open F drvR (fuel + 1) key2 self2
    st2 self.target hdb
  obtain ⟨e1, he1, -, -, hx1⟩ := SettingsManager.exists_of_open drvR (fuel + 1) key2 self2
    st2 self.target hdb
  refine ⟨r1, e1, hr1, he1, ?_, ?_⟩
  · rw [hv1, hr0, htable, hrows]
  · rw [hx1, he0, htable, hrows]

/-- C18: for distinct keys `key` and `key2`, `write(key, value)` and
`remove(key)` leave the rows named `key2` of every table as they were, so that
`read(key2)` and `exists(key2)` return after either of them what they return
before; and `read` and `exists` leave the storage as it is. -/
theorem other_keys_are_untouched (F : QtParameters) (drv drvR : Driver)
    (m_Instances : List (Option Nat)) (fuel : Nat) (key key2 : String) (value : QVariant)
    (self : SettingsManager) (st : Storage)
    (hne : key ≠ key2) (hopen : drv.openOk = true) (hopenR : drvR.openOk = true) :
    ∃ w rm r0 e0,
      SettingsManager.write F drv m_Instances (fuel + 1) key value self st = some w ∧
      SettingsManager.remove drv (fuel + 1) key self st = some rm ∧
      SettingsManager.read F drvR (fuel + 1) key2 self st = some r0 ∧
      SettingsManager.exists drvR (fuel + 1) key2 self st = some e0 ∧
      (∀ p t, rowsNamed key2 (w.storage p t) = rowsNamed key2 (st p t)) ∧
      (∀ p t, rowsNamed key2 (rm.storage p t) = rowsNamed key2 (st p t)) ∧
      (∃ r1 e1, SettingsManager.read F drvR (fuel + 1) key2 w.self w.storage = some r1 ∧
        SettingsManager.exists drvR (fuel + 1) key2 w.self w.storage = some e1 ∧
        r1.result = r0.result ∧ e1.result = e0.result) ∧
      (∃ r2 e2, SettingsManager.read F drvR (fuel + 1) key2 rm.self rm.storage = some r2 ∧
        SettingsManager.exists drvR (fuel + 1) key2 rm.self rm.storage = some e2 ∧
        r2.result = r0.result ∧ e2.result = e0.result) ∧
      r0.storage = st ∧ e0.storage = st := by
  obtain ⟨w, hw, hwdb, hwtable, hwrows⟩ := SettingsManager.write_keeps_other_keys F drv
    m_Instances fuel key key2 value self st hne hopen
  obtain ⟨rm, hrm, hrdb, hrtable, hrrows⟩ := SettingsManager.remove_keeps_other_keys drv
    fuel key key2 self st hne hopen
  have hconnR := SettingsManager.openDatabase_conn drvR self hopenR
  obtain ⟨r0, hr0, -, hr0st, hr0v⟩ := SettingsManager.read_of_conn F drvR fuel key2 self st
    self.target hconnR
  obtain ⟨e0, he0, he0st, he0v⟩ := SettingsManager.exists_of_conn drvR fuel key2 self st
    self.target hconnR
  exact ⟨w, rm, r0, e0, hw, hrm, hr0, he0, hwrows, hrrows,
    SettingsManager.read_exists_after F drvR fuel key2 self w.self st w.storage r0 e0 hr0v
      he0v hwdb hwtable hwrows,
    SettingsManager.read_exists_after F drvR fuel key2 self rm.self st rm.storage r0 e0 hr0v
      he0v hrdb hrtable hrrows,
    hr0st, he0st⟩

/-- A run of C18: `write("theme", "light")` and `remove("theme")` on the table
that holds `theme`, seen from the key `volume`. -/
theorem other_keys_are_untouched_witness :
    ∃ w rm r0 e0,
      SettingsManager.write Sample.format Sample.okDriver Sample.registry (0 + 1) "theme"
        (QVariant.string "light") Sample.manager Sample.themeStorage = some w ∧
      SettingsManager.remove Sample.okDriver (0 + 1) "theme" Sample.manager
        Sample.themeStorage = some rm ∧
      SettingsManager.read Sample.format Sample.okDriver (0 + 1) "volume" Sample.manager
        Sample.themeStorage = some r0 ∧
      SettingsManager.exists Sample.okDriver (0 + 1) "volume" Sample.manager
        Sample.themeStorage = some e0 ∧
      (∀ p t, rowsNamed "volume" (w.storage p t)
        = rowsNamed "volume" (Sample.themeStorage p t)) ∧
      (∀ p t, rowsNamed "volume" (rm.storage p t)
        = rowsNamed "volume" (Sample.themeStorage p t)) ∧
      (∃ r1 e1, SettingsManager.read Sample.format Sample.okDriver (0 + 1) "volume" w.self
          w.storage = some r1 ∧
        SettingsManager.exists Sample.okDriver (0 + 1) "volume" w.self w.storage = some e1 ∧
        r1.result = r0.result ∧ e1.result = e0.result) ∧
      (∃ r2 e2, SettingsManager.read Sample.format Sample.okDriver (0 + 1) "volume" rm.self
          rm.storage = some r2 ∧
        SettingsManager.exists Sample.okDriver (0 + 1) "volume" rm.self rm.storage
          = some e2 ∧
        r2.result = r0.result ∧ e2.result = e0.result) ∧
      r0.storage = Sample.themeStorage ∧ e0.storage = Sample.themeStorage :=
  other_keys_are_untouched Sample.format Sample.okDriver Sample.okDriver Sample.registry 0
    "theme" "volume" (QVariant.string "light") Sample.manager Sample.themeStorage
    (by decide) (by decide) (by decide)

/-! ## The registry of `SignalManager` -/

theorem QMap.mem_insert {T : Type} (m : QMap T) (key : Nat) (value : T) (e : Nat × T) :
    e ∈ m.insert key value ↔ e = (key, value) ∨ (e ∈ m ∧ e.1 ≠ key) := by
  unfold QMap.insert
  simp only [List.mem_append, List.mem_filter, decide_eq_true_eq, List.mem_singleton]
  constructor
  · rintro ((⟨h1, h2⟩ | h) | ⟨h1, h2⟩)
    · exact Or.inr ⟨h1, by omega⟩
    · exact Or.inl h
    · exact Or.inr ⟨h1, by omega⟩
  · rintro (h | ⟨h1, h2⟩)
    · exact Or.inl (Or.inr h)
    · rcases Nat.lt_or_gt_of_ne h2 with h | h
      · exact Or.inl (Or.inl ⟨h1, h⟩)
      · exact Or.inr ⟨h1, h⟩

theorem QMap.nodup_insert {T : Type} (m : QMap T) (key : Nat) (value : T)
    (h : (m.map Prod.fst).Nodup) : ((m.insert key value).map Prod.fst).Nodup := by
  unfold QMap.insert
  simp only [List.map_append, List.map_cons, List.map_nil]
  have hsub1 : ((m.filter fun e => decide (e.1 < key)).map Prod.fst).Nodup :=
    List.Nodup.sublist ((List.filter_sublist m).map Prod.fst) h
  have hsub2 : ((m.filter fun e => decide (key < e.1)).map Prod.fst).Nodup :=
    List.Nodup.sublist ((List.filter_sublist m).map Prod.fst) h
  have hlt : ∀ x ∈ (m.filter fun e => decide (e.1 < key)).map Prod.fst, x < key := by
    intro x hx
    obtain ⟨e, he, rfl⟩ := List.mem_map.1 hx
    simpa using (List.mem_filter.1 he).2
  have hgt : ∀ x ∈ (m.filter fun e => decide (key < e.1)).map Prod.fst, key < x := by
    intro x hx
    obtain ⟨e, he, rfl⟩ := List.mem_map.1 hx
    simpa using (List.mem_filter.1 he).2
  rw [List.nodup_append]
  refine ⟨?_, hsub2, ?_⟩
  · rw [List.nodup_append]
    refine ⟨hsub1, List.nodup_singleton _, ?_⟩
    intro x hx hx2
    rw [List.mem_singleton] at hx2
    have := hlt x hx
    omega
  · intro x hx hx2
    have h2 := hgt x hx2
    rcases List.mem_append.1 hx with h1 | h1
    · have := hlt x h1
      omega
    · rw [List.mem_singleton] at h1
      omega

theorem SignalProcess.registry_consistent_initially : SignalProcess.initial.consistent := by
  simp [SignalProcess.consistent, SignalProcess.initial]

theorem SignalProcess.step_keeps_consistent (op : SignalLifecycle) (p q : SignalProcess)
    (hp : p.consistent) (hstep : p.step op = some q) : q.consistent := by
  obtain ⟨h1, h2, h3⟩ := hp
  have hinj := List.inj_on_of_nodup_map h3
  cases op with
  | construct address =>
    simp only [SignalProcess.step] at hstep
    split at hstep
    · cases hstep
    · rename_i hany
      have hfree : ∀ o ∈ p.objects, o.address ≠ address := by
        intro o ho heq
        apply hany
        rw [List.any_eq_true]
        exact ⟨o, ho, by simpa using heq⟩
      simp only [Option.some.injEq] at hstep
      subst hstep
      refine ⟨QMap.nodup_insert _ _ _ h1, ?_, ?_⟩
      · intro e he
        rcases (QMap.mem_insert _ _ _ e).1 he with h | ⟨h, -⟩
        · subst h
          exact ⟨⟨address, p.m_Instances.length, ""⟩, by simp [SignalManager.construct],
            rfl, rfl⟩
        · obtain ⟨o, ho, hoe⟩ := h2 e h
          exact ⟨o, by simp [SignalManager.construct, ho], hoe⟩
      · simp only [SignalManager.construct, List.map_append, List.map_cons, List.map_nil]
        rw [List.nodup_append]
        refine ⟨h3, List.nodup_singleton _, ?_⟩
        intro x hx hx2
        rw [List.mem_singleton] at hx2
        subst hx2
        obtain ⟨o, ho, hoa⟩ := List.mem_map.1 hx
        exact hfree o ho hoa
  | destroy address =>
    simp only [SignalProcess.step] at hstep
    split at hstep
    · cases hstep
    · rename_i self hfind
      have hmem : self ∈ p.objects := List.mem_of_find?_eq_some hfind
      simp only [Option.some.injEq] at hstep
      subst hstep
      refine ⟨?_, ?_, ?_⟩
      · exact List.Nodup.sublist ((List.filter_sublist p.m_Instances).map Prod.fst) h1
      · intro e he
        have he2 : e ∈ p.m_Instances ∧ e.1 ≠ self.m_InstanceIndex := by
          simpa [SignalManager.destruct, QMap.remove] using he
        obtain ⟨o, ho, hov, hoi⟩ := h2 e he2.1
        refine ⟨o, ?_, hov, hoi⟩
        have hne : o.address ≠ self.address := by
          intro heq
          have := hinj ho hmem heq
          rw [this] at hoi
          exact he2.2 hoi.symm
        simp [SignalManager.destruct, ho, hne]
      · exact List.Nodup.sublist ((List.filter_sublist p.objects).map SignalManager.address) h3
  | setObjectName address name =>
    simp only [SignalProcess.step] at hstep
    split at hstep
    · simp only [Option.some.injEq] at hstep
      subst hstep
      have haddr : (p.objects.map fun o =>
          if o.address = address then { o with objectName := name } else o).map
          SignalManager.address = p.objects.map SignalManager.address := by
        rw [List.map_map]
        apply List.map_congr_left
        intro o _
        by_cases h : o.address = address <;> simp [h]
      refine ⟨h1, ?_, ?_⟩
      · intro e he
        obtain ⟨o, ho, hov, hoi⟩ := h2 e he
        refine ⟨if o.address = address then { o with objectName := name } else o,
          List.mem_map.2 ⟨o, ho, rfl⟩, ?_, ?_⟩
        · by_cases h : o.address = address <;> simp [h, hov]
        · by_cases h : o.address = address <;> simp [h, hoi]
      · show ((p.objects.map fun o =>
          if o.address = address then { o with objectName := name } else o).map
          SignalManager.address).Nodup
        rw [haddr]
        exact h3
    · cases hstep

theorem SignalProcess.run_keeps_consistent (ops : List SignalLifecycle) (p q : SignalProcess)
    (hp : p.consistent) (hrun : SignalProcess.run ops p = some q) : q.consistent := by
  induction ops generalizing p with
  | nil =>
    simp only [SignalProcess.run, Option.some.injEq] at hrun
    subst hrun
    exact hp
  | cons op ops ih =>
    simp only [SignalProcess.run] at hrun
    split at hrun
    · cases hrun
    · rename_i r hstep
      exact ih r (SignalProcess.step_keeps_consistent op p r hp hstep) hrun

theorem SignalProcess.values_nodup (p : SignalProcess) (hp : p.consistent) :
    (p.m_Instances.map Prod.snd).Nodup := by
  obtain ⟨h1, h2, h3⟩ := hp
  have hinj := List.inj_on_of_nodup_map h3
  apply List.Nodup.map_on _ (List.Nodup.of_map Prod.fst h1)
  intro e1 he1 e2 he2 heq
  obtain ⟨o1, ho1, hv1, hi1⟩ := h2 e1 he1
  obtain ⟨o2, ho2, hv2, hi2⟩ := h2 e2 he2
  have haddr : o1.address = o2.address := by
    rw [hv1, hv2] at heq
    exact Option.some.inj heq
  have hobj := hinj ho1 ho2 haddr
  apply Prod.ext
  · rw [← hi1, ← hi2, hobj]
  · exact heq

theorem SignalManager.emitLoop_mem {Data : Type} (objects : List SignalManager)
    (signalName targetObjectName : String) (data : Data) (m : QMap (Option Nat))
    (c : Nat × String × Data)
    (hc : c ∈ SignalManager.emitLoop objects signalName targetObjectName data m) :
    c.2 = (signalName, data) ∧ ∃ k, (k, some c.1) ∈ m ∧
      (targetObjectName.length = 0 ∨
        targetObjectName = SignalManager.objectNameOf objects c.1) := by
  induction m with
  | nil => simp [SignalManager.emitLoop] at hc
  | cons e m ih =>
    obtain ⟨k, v⟩ := e
    cases v with
    | none =>
      simp only [SignalManager.emitLoop] at hc
      obtain ⟨h1, k2, h2, h3⟩ := ih hc
      exact ⟨h1, k2, List.mem_cons_of_mem _ h2, h3⟩
    | some receiver =>
      simp only [SignalManager.emitLoop, List.mem_append] at hc
      rcases hc with hc | hc
      · by_cases hlen : targetObjectName.length > 0
        · rw [if_pos hlen] at hc
          by_cases hname : targetObjectName = SignalManager.objectNameOf objects receiver
          · rw [if_pos hname, List.mem_singleton] at hc
            subst hc
            exact ⟨rfl, k, List.mem_cons_self _ _, Or.inr hname⟩
          · rw [if_neg hname] at hc
            cases hc
        · rw [if_neg hlen, List.mem_singleton] at hc
          subst hc
          exact ⟨rfl, k, List.mem_cons_self _ _, Or.inl (by omega)⟩
      · obtain ⟨h1, k2, h2, h3⟩ := ih hc
        exact ⟨h1, k2, List.mem_cons_of_mem _ h2, h3⟩

theorem SignalManager.emitLoop_filter_absent {Data : Type} (objects : List SignalManager)
    (signalName targetObjectName : String) (data : Data) (m : QMap (Option Nat)) (a : Nat)
    (habsent : ∀ e ∈ m, e.2 ≠ some a) :
    (SignalManager.emitLoop objects signalName targetObjectName data m).filter
      (fun c => decide (c.1 = a)) = [] := by
  rw [List.filter_eq_nil_iff]
  intro c hc
  obtain ⟨-, k, hk, -⟩ := SignalManager.emitLoop_mem objects signalName targetObjectName
    data m c hc
  have hne : c.1 ≠ a := by
    intro heq
    exact habsent (k, some c.1) hk (by rw [heq])
  simpa using hne

theorem SignalManager.emitLoop_filter_present {Data : Type} (objects : List SignalManager)
    (signalName targetObjectName : String) (data : Data) (m : QMap (Option Nat))
    (k a : Nat) (hnd : (m.map Prod.snd).Nodup) (hmem : (k, some a) ∈ m) :
    (SignalManager.emitLoop objects signalName targetObjectName data m).filter
      (fun c => decide (c.1 = a))
      = if targetObjectName.length > 0 then
          if targetObjectName = SignalManager.objectNameOf objects a then
            [(a, signalName, data)]
          else []
        else [(a, signalName, data)] := by
  induction m with
  | nil => cases hmem
  | cons e m ih =>
    obtain ⟨k2, v⟩ := e
    simp only [List.map_cons, List.nodup_cons] at hnd
    obtain ⟨hv, hnd2⟩ := hnd
    rcases List.mem_cons.1 hmem with heq | htail
    · simp only [Prod.mk.injEq] at heq
      obtain ⟨-, hva⟩ := heq
      subst hva
      have hrest : ∀ e ∈ m, e.2 ≠ some a := by
        intro e he heq
        exact hv (List.mem_map.2 ⟨e, he, heq⟩)
      simp only [SignalManager.emitLoop, List.filter_append,
        SignalManager.emitLoop_filter_absent objects signalName targetObjectName data m a
          hrest, List.append_nil]
      by_cases hlen : targetObjectName.length > 0
      · by_cases hname : targetObjectName = SignalManager.objectNameOf objects a
        · simp [hlen, ← hname]
        · simp [hlen, hname]
      · simp [hlen]
    · have hne : v ≠ some a := by
        intro heq
        exact hv (List.mem_map.2 ⟨(k, some a), htail, heq.symm⟩)
      cases v with
      | none =>
        simp only [SignalManager.emitLoop]
        exact ih hnd2 htail
      | some receiver =>
        have hra : ¬ receiver = a := fun h => hne (by rw [h])
        simp only [SignalManager.emitLoop, List.filter_append, ih hnd2 htail]
        by_cases hlen : targetObjectName.length > 0
        · by_cases hname : targetObjectName = SignalManager.objectNameOf objects receiver
          · simp [hlen, ← hname, hra]
          · simp [hlen, hname]
        · simp [hlen, hra]

theorem SignalManager.objectNameOf_eq (objects : List SignalManager)
    (hnd : (objects.map SignalManager.address).Nodup) (o : SignalManager) (ho : o ∈ objects) :
    SignalManager.objectNameOf objects o.address = o.objectName := by
  unfold SignalManager.objectNameOf
  cases hfind : objects.find? fun x => decide (x.address = o.address) with
  | none =>
    have := List.find?_eq_none.1 hfind o ho
    simp at this
  | some x =>
    have hx : x ∈ objects := List.mem_of_find?_eq_some hfind
    have hxa : x.address = o.address := by
      simpa using List.find?_some hfind
    rw [List.inj_on_of_nodup_map hnd hx ho hxa]

/-- C15, at the failing input: a first and a second `SignalManager` are
constructed (indices 0 and 1), the first one is destroyed, and a third one is
constructed.  Its index is the size of the map, 1, the index of the second
one, and `insert` replaces the entry: the second instance lives and is not in
the registry, two living instances share the index 1, `emitSignal` with an
empty target reaches the third instance only, and the destructor of the third
instance leaves the registry empty. -/
theorem signal_manager_index_is_taken_twice :
    SignalProcess.run Sample.signalLifecycle SignalProcess.initial
      = some ⟨[(1, some 3)], [⟨2, 1, ""⟩, ⟨3, 1, ""⟩]⟩ ∧
    (SignalProcess.run Sample.signalLifecycle SignalProcess.initial).map
        (fun p => SignalManager.emitSignal p "ping" "" (0 : Nat))
      = some [(3, "ping", 0)] ∧
    SignalProcess.run (Sample.signalLifecycle ++ [SignalLifecycle.destroy 3])
        SignalProcess.initial
      = some ⟨[], [⟨2, 1, ""⟩]⟩ := by
  decide

/-- C16: in every state of the registry a sequence of constructions,
destructions and renamings leads to, `emitSignal` queues `signalReceived`
with the signal name and the data it was given, on registered instances only;
on a registered instance it queues exactly one call when the target name is
empty or equal to the object name of the instance, and none otherwise; the
object name consulted is the name of the living object the entry points to. -/
theorem emitSignal_reaches_matching_instances_once {Data : Type}
    (ops : List SignalLifecycle) (p : SignalProcess) (signalName targetObjectName : String)
    (data : Data)
    (hp : SignalProcess.run ops SignalProcess.initial = some p) :
    (∀ k a, (k, some a) ∈ p.m_Instances →
      (SignalManager.emitSignal p signalName targetObjectName data).filter
        (fun c => decide (c.1 = a))
        = if targetObjectName.length > 0 then
            if targetObjectName = SignalManager.objectNameOf p.objects a then
              [(a, signalName, data)]
            else []
          else [(a, signalName, data)]) ∧
    (∀ c ∈ SignalManager.emitSignal p signalName targetObjectName data,
      c.2 = (signalName, data) ∧ ∃ k, (k, some c.1) ∈ p.m_Instances ∧
        (targetObjectName.length = 0 ∨
          targetObjectName = SignalManager.objectNameOf p.objects c.1)) ∧
    (∀ e ∈ p.m_Instances, ∃ o ∈ p.objects, e.2 = some o.address ∧
      SignalManager.objectNameOf p.objects o.address = o.objectName) := by
  have hcons := SignalProcess.run_keeps_consistent ops _ p SignalProcess.registry_consistent_initially hp
  refine ⟨?_, ?_, ?_⟩
  · intro k a hmem
    exact SignalManager.emitLoop_filter_present p.objects signalName targetObjectName data
      p.m_Instances k a (SignalProcess.values_nodup p hcons) hmem
  · intro c hc
    exact SignalManager.emitLoop_mem p.objects signalName targetObjectName data
      p.m_Instances c hc
  · intro e he
    obtain ⟨o, ho, hov, -⟩ := hcons.2.1 e he
    exact ⟨o, ho, hov, SignalManager.objectNameOf_eq p.objects hcons.2.2 o ho⟩

/-- A run of C16: two instances, the second one named `panel`, and a signal
for `panel`. -/
theorem emitSignal_reaches_matching_instances_once_witness :
    (∀ k a, (k, some a) ∈ Sample.namedProcess.m_Instances →
      (SignalManager.emitSignal Sample.namedProcess "ping" "panel" (5 : Nat)).filter
        (fun c => decide (c.1 = a))
        = if "panel".length > 0 then
            if "panel" = SignalManager.objectNameOf Sample.namedProcess.objects a then
              [(a, "ping", 5)]
            else []
          else [(a, "ping", 5)]) ∧
    (∀ c ∈ SignalManager.emitSignal Sample.namedProcess "ping" "panel" (5 : Nat),
      c.2 = ("ping", 5) ∧ ∃ k, (k, some c.1) ∈ Sample.namedProcess.m_Instances ∧
        ("panel".length = 0 ∨
          "panel" = SignalManager.objectNameOf Sample.namedProcess.objects c.1)) ∧
    (∀ e ∈ Sample.namedProcess.m_Instances, ∃ o ∈ Sample.namedProcess.objects,
      e.2 = some o.address ∧
      SignalManager.objectNameOf Sample.namedProcess.objects o.address = o.objectName) :=
  emitSignal_reaches_matching_instances_once Sample.namedLifecycle Sample.namedProcess
    "ping" "panel" (5 : Nat) (by decide)

end zmc
